import Mathlib

/-!
Verification development for the angstrom consensus core and matching engine.

The Rust sources are embedded shallowly: machine integers become `Nat`,
`HashMap`s keyed by pool id become key-sorted association lists, `HashSet`s
become duplicate-free lists, and `VecDeque` message queues become lists with
`push_back` as append and `pop_front` as head/tail.  Cryptographic signing is
abstracted: a signature carries the recoverable signer id plus a nonce (ECDSA
signatures over identical content differ, which the nonce models).

Components whose Rust source is not available (the `orders` module with
`OrderFillState::partial_fill`, the `cfmm` AMM curve, `book/sort.rs`,
the phase modules of `rounds/`) are modelled from the spec; each such
definition carries a doc comment saying so.
-/

/-! ### Consensus data model (crates/types/src/consensus) -/

/-- Abstract recoverable signature: `signer` is the peer id that signature
recovery yields, `nonce` models the non-determinism of ECDSA signing (two
signatures over the same content by the same key may differ). -/
structure SignatureN where
  signer : Nat
  nonce  : Nat
deriving DecidableEq

/-- Signature recovery, abstracting `recover_from_prehash` composed with
`public_key_to_peer_id`. -/
def recoverSigner (s : SignatureN) : Nat := s.signer

/-- Embedding of `PreProposal` (pre_prepose.rs).  The `limit` and `searcher`
pool-keyed `HashMap`s are modelled as association lists from pool id to order
id.  The derived `DecidableEq` mirrors the derived `PartialEq`/`Eq` on the
Rust struct, which compares every field, the `signature` included. -/
structure PreProposal where
  blockHeight : Nat
  source      : Nat
  limit       : List (Nat × Nat)
  searcher    : List (Nat × Nat)
  signature   : SignatureN
deriving DecidableEq

/-- Embedding of `PreProposalContent` (pre_prepose.rs): the semantic payload
of a `PreProposal` without its signature. -/
structure PreProposalContent where
  blockHeight : Nat
  source      : Nat
  limit       : List (Nat × Nat)
  searcher    : List (Nat × Nat)
deriving DecidableEq

/-- Embedding of `PreProposal::content`. -/
def PreProposal.content (p : PreProposal) : PreProposalContent :=
  { blockHeight := p.blockHeight, source := p.source,
    limit := p.limit, searcher := p.searcher }

/-- Values fed to the hasher for one pool-keyed map, keys sorted first, each
key followed by its value, mirroring the `limit_keys.sort()` loops of the
`Hash` impls of pre_prepose.rs. -/
def sortedMapHashStream (m : List (Nat × Nat)) : List Nat :=
  (List.insertionSort (fun a b => a ≤ b) (m.map (fun kv => kv.1))).flatMap
    (fun k => [k, ((m.lookup k).getD 0)])

/-- Embedding of `Hash for PreProposalContent`: height, source, sorted limit
map, sorted searcher map, and no signature. -/
def contentHashStream (c : PreProposalContent) : List Nat :=
  [c.blockHeight, c.source] ++ sortedMapHashStream c.limit
    ++ sortedMapHashStream c.searcher

/-- Embedding of `Hash for PreProposal`: exactly the content stream followed
by the signature (rust lines hash `self.signature` last). -/
def preProposalHashStream (p : PreProposal) : List Nat :=
  contentHashStream p.content ++ [p.signature.signer, p.signature.nonce]

/-- Embedding of `PreProposal::is_valid`: the signature must recover to the
stated source and the stated height must match the round height. -/
def isValidPreProposal (p : PreProposal) (blockHeight : Nat) : Bool :=
  recoverSigner p.signature == p.source && p.blockHeight == blockHeight

/-- Modelled from the spec: `PreProposalAggregation` (its module is not in
src/) is a set of PreProposals a validator forwards as one unit. -/
structure PreProposalAggregation where
  preProposals : List PreProposal
deriving DecidableEq

/-- Embedding of `Proposal` (proposal.rs); pool solutions are abstracted to
their canonical sort keys. -/
structure Proposal where
  ethereumHeight : Nat
  source         : Nat
  preproposals   : List PreProposal
  solutions      : List Nat
  signature      : SignatureN
deriving DecidableEq

/-- Modelled from the spec: `Proposal::is_valid(height)` as called by
rounds/mod.rs is not in src/ (the src proposal.rs only has `validate`);
per the spec it checks that the signature recovers to the stated source and
the stated height matches the round height. -/
def isValidProposal (p : Proposal) (blockHeight : Nat) : Bool :=
  recoverSigner p.signature == p.source && p.ethereumHeight == blockHeight

/-- Embedding of `ConsensusTransitionMessage` (rounds/mod.rs). -/
inductive ConsensusTransitionMessage where
  | propagatePreProposal (p : PreProposal)
  | propagatePreProposalAgg (a : PreProposalAggregation)
  | propagateProposal (p : Proposal)
deriving DecidableEq

/-- Embedding of `AngstromValidator` restricted to what rounds/mod.rs reads
from it (its `peer_id`). -/
structure AngstromValidator where
  peerId : Nat
deriving DecidableEq

/-- Embedding of the `Consensus` round context (rounds/mod.rs), keeping the
fields the consensus logic reads and writes; external handles (storage,
provider, signer, metrics, pools) are omitted. -/
structure ConsensusCtx where
  blockHeight : Nat
  roundLeader : Nat
  validators  : List AngstromValidator
  messages    : List ConsensusTransitionMessage
deriving DecidableEq

/-- Embedding of `u64::div_ceil` as used by rounds/mod.rs. -/
def rustDivCeil (a b : Nat) : Nat := (a + b - 1) / b

/-- Embedding of `Consensus::two_thirds_of_validation_set`:
`(2 * self.validators.len()).div_ceil(3)`. -/
def twoThirdsOfValidationSet (c : ConsensusCtx) : Nat :=
  rustDivCeil (2 * c.validators.length) 3

/-- One `HashMap::entry(order).or_insert(0) += 1` step of
`filter_quorum_orders`, on an association list. -/
def bumpCount {O : Type} [DecidableEq O] :
    List (O × Nat) → O → List (O × Nat)
  | [], o => [(o, 1)]
  | (k, c) :: rest, o =>
      if k = o then (k, c + 1) :: rest else (k, c) :: bumpCount rest o

/-- The occurrence-count map built by the fold in
`Consensus::filter_quorum_orders`. -/
def orderCounts {O : Type} [DecidableEq O] (input : List O) : List (O × Nat) :=
  input.foldl bumpCount []

/-- Occurrence count of an element in a list (duplicates counted). -/
def countOcc {O : Type} [DecidableEq O] : List O → O → Nat
  | [], _ => 0
  | x :: rest, o => (if x = o then 1 else 0) + countOcc rest o

/-- Lookup in a count association list. -/
def getCount {O : Type} [DecidableEq O] : List (O × Nat) → O → Nat
  | [], _ => 0
  | (k, c) :: rest, o => if k = o then c else getCount rest o

/-- Embedding of `Consensus::filter_quorum_orders`: count occurrences of each
distinct order in the flattened input, keep those whose count reaches the
two-thirds threshold. -/
def filterQuorumOrders {O : Type} [DecidableEq O]
    (c : ConsensusCtx) (input : List O) : List O :=
  ((orderCounts input).filter
    (fun kc => twoThirdsOfValidationSet c ≤ kc.2)).map (fun kc => kc.1)

/-- The flattening step of `Consensus::matching_engine_output`: every
accepted aggregation's member PreProposals contribute all their limit
entries to one multiset. -/
def flattenAggLimits (aggs : List PreProposalAggregation) : List (Nat × Nat) :=
  aggs.flatMap (fun agg => agg.preProposals.flatMap (fun p => p.limit))

/-- The quorum-filtered limit-order input handed to the solver by
`Consensus::matching_engine_output`. -/
def matchingEngineLimitInput (c : ConsensusCtx)
    (aggs : List PreProposalAggregation) : List (Nat × Nat) :=
  filterQuorumOrders c (flattenAggLimits aggs)

/-- Embedding of `Consensus::handle_proposal_verification`, generic over the
payload type, with the seen-set as a duplicate-free list; membership uses the
payload type's own equality, exactly as the Rust `HashSet<P>` does. -/
def handleProposalVerification {P : Type} [DecidableEq P]
    (toMsg : P → ConsensusTransitionMessage) (valid : P → Nat → Bool)
    (c : ConsensusCtx) (peerId : Nat) (proposal : P) (proposalSet : List P) :
    ConsensusCtx × List P :=
  if ¬ (peerId ∈ c.validators.map (fun v => v.peerId)) then (c, proposalSet)
  else if ¬ (valid proposal c.blockHeight = true) then (c, proposalSet)
  else if proposal ∈ proposalSet then (c, proposalSet)
  else ({ c with messages := c.messages ++ [toMsg proposal] },
        proposal :: proposalSet)

/-- Embedding of `Consensus::handle_pre_proposal`. -/
def handlePreProposal (c : ConsensusCtx) (peerId : Nat) (p : PreProposal)
    (set : List PreProposal) : ConsensusCtx × List PreProposal :=
  handleProposalVerification ConsensusTransitionMessage.propagatePreProposal
    (fun pp h => isValidPreProposal pp h) c peerId p set

/-- Embedding of `Consensus::verify_proposal`: leader check, validity check,
re-broadcast on acceptance. -/
def verifyProposal (c : ConsensusCtx) (peerId : Nat) (p : Proposal) :
    ConsensusCtx × Option Proposal :=
  if c.roundLeader ≠ peerId then (c, none)
  else if isValidProposal p c.blockHeight then
    ({ c with messages :=
        c.messages ++ [ConsensusTransitionMessage.propagateProposal p] },
     some p)
  else (c, none)

/-- Modelled from the spec: the Proposal-wait phase (rounds/proposal.rs is
not in src/) keeps the accepted proposal, so a later delivery of a proposal
after one was accepted is ignored (same dedup rule as pre-proposals). -/
def proposalPhaseDeliver (st : ConsensusCtx × Option Proposal)
    (peerId : Nat) (p : Proposal) : ConsensusCtx × Option Proposal :=
  match st.2 with
  | some q => (st.1, some q)
  | none => verifyProposal st.1 peerId p

/-! ### Round state machine (rounds/mod.rs) -/

/-- The closed set of phases of the round state machine; phases other than
the initial `bidAggregation` carry no data relevant to the embedded
operations (their modules are not in src/), so they are bare tags. -/
inductive Phase where
  | bidAggregation (waitDuration : Nat)
  | preProposalAggregation
  | proposalWait
  | commitPhase
  | submitPhase
  | finalizationPhase
  | completed
deriving DecidableEq

/-- Embedding of `RoundStateMachine`. -/
structure RoundStateMachine where
  currentState          : Phase
  consensusWaitDuration : Nat
  consensusArguments    : ConsensusCtx
deriving DecidableEq

/-- A phase's `poll_transition`: given the phase and the round context it may
report readiness (`some (some next)` replaces the phase, `some none` ends the
round, `none` is `Poll::Pending`) and may mutate the context (enqueue
messages).  It is a parameter because each phase's body lives in modules not
needed here. -/
def PollTransition : Type :=
  Phase → ConsensusCtx → Option (Option Phase) × ConsensusCtx

/-- Embedding of `RoundStateMachine::poll_next` (the `Stream` impl): poll the
current phase once, install the successor if one is ready, then pop the front
of the outbound queue. -/
def pollNext (trans : PollTransition) (m : RoundStateMachine) :
    RoundStateMachine × Option ConsensusTransitionMessage :=
  let tr := trans m.currentState m.consensusArguments
  let st := match tr.1 with
    | some (some s) => s
    | _ => m.currentState
  match tr.2.messages with
  | [] => ({ m with currentState := st, consensusArguments := tr.2 }, none)
  | msg :: rest =>
      ({ m with currentState := st,
                consensusArguments := { tr.2 with messages := rest } },
       some msg)

/-- A transition function that is never ready and leaves the context alone
(`Poll::Pending` forever); used to observe pure queue draining. -/
def idTrans : PollTransition := fun _ c => (none, c)

/-- Messages emitted by `n` consecutive polls of the state machine. -/
def drainMessages (trans : PollTransition) :
    Nat → RoundStateMachine → List ConsensusTransitionMessage
  | 0, _ => []
  | n + 1, m =>
      match pollNext trans m with
      | (m2, some msg) => msg :: drainMessages trans n m2
      | (m2, none) => drainMessages trans n m2

/-- Embedding of `RoundStateMachine::reset_round`: set the new height and
leader and reinstate the initial BidAggregation phase.  Note that the Rust
body touches nothing else; in particular `messages` is left as it is. -/
def resetRound (m : RoundStateMachine) (newBlock newLeader : Nat) :
    RoundStateMachine :=
  { m with
    consensusArguments :=
      { m.consensusArguments with
        blockHeight := newBlock, roundLeader := newLeader },
    currentState := Phase.bidAggregation m.consensusWaitDuration }

/-! ### Finalization replay comparison (rounds/finalization.rs) -/

/-- The `Vec::sort` applied to solution lists before comparison, over the
canonical sort keys. -/
def sortSolutions (l : List Nat) : List Nat :=
  List.insertionSort (fun a b => a ≤ b) l

/-- The comparison at the heart of `FinalizationState::new`: sort the
leader's claimed solutions and the locally recomputed ones, zip them and
require element-wise equality; `true` means agreement. -/
def verificationAgrees (proposalSolutions verificationSolutions : List Nat) :
    Bool :=
  ((sortSolutions proposalSolutions).zip
    (sortSolutions verificationSolutions)).all (fun pv => pv.1 == pv.2)

/-! ### Order book and matcher data model (crates/matching-engine) -/

/-- Modelled from the spec: the order fill state of the `orders` module
(not in src/): `Unfilled | PartialFill(quantity) | CompleteFill`. -/
inductive OrderFillState where
  | Unfilled
  | PartialFill (quantity : Nat)
  | CompleteFill
deriving DecidableEq

/-- Modelled from the spec: `OrderFillState::partial_fill` (orders module
not in src/) accumulates a partial-fill quantity; a partial fill never
regresses and `CompleteFill` is terminal. -/
def OrderFillState.partialFill (s : OrderFillState) (m : Nat) :
    OrderFillState :=
  match s with
  | .Unfilled => .PartialFill m
  | .PartialFill p => .PartialFill (p + m)
  | .CompleteFill => .CompleteFill

/-- A resting book order (`OrderWithStorageData<GroupedVanillaOrder>`),
keeping the fields the matcher reads: identifier, limit price, quantity, the
`is_bid` tag, and whether the order is a `GroupedVanillaOrder::Standing`
order (the kind that permits resting partial fills). -/
structure BookOrder where
  orderId    : Nat
  price      : Nat
  quantity   : Nat
  isBid      : Bool
  isStanding : Bool
deriving DecidableEq

/-- Embedding of `OrderExclusion` (book/order.rs is not in src/; only the
`Dead` check of `try_next_order` matters). -/
inductive OrderExclusion where
  | live (ttl : Nat)
  | dead (ttl : Nat)
deriving DecidableEq

/-- Modelled from the spec: a synthetic AMM counter-order produced by the
curve (cfmm module not in src/), recorded as the price segment it would
sweep: from the current curve price `startPrice` toward `targetPrice`. -/
structure AmmOrder where
  startPrice  : Nat
  targetPrice : Nat
  isAskSide   : Bool
deriving DecidableEq

/-- Modelled from the spec: the quantity the curve can profitably offer up to
the opposing side's limit price, for a linear unit-liquidity curve: the
length of the price segment between the current price and the nearer of the
target and the limit (zero when the price is already past either). -/
def ammQuantity (o : AmmOrder) (limitPrice : Nat) : Nat :=
  if o.isAskSide then min o.targetPrice limitPrice - o.startPrice
  else o.startPrice - max o.targetPrice limitPrice

/-- Result of filling an AMM order: the curve price cursor after the fill
and the token deltas reported to `NetAmmOrder::add_quantity`. -/
structure FilledAmmOrder where
  endBound : Nat
  dT0      : Nat
  dT1      : Nat
deriving DecidableEq

/-- Modelled from the spec: filling a quantity against the unit-liquidity
curve moves the price cursor by it, upward when the AMM sells (ask side),
downward when it buys. -/
def AmmOrder.fill (o : AmmOrder) (matched : Nat) : FilledAmmOrder :=
  { endBound := if o.isAskSide then o.startPrice + matched
      else o.startPrice - matched,
    dT0 := matched, dT1 := matched }

/-- Modelled from the spec: `MarketPrice::order_to_target` (cfmm module not
in src/): produce a synthetic AMM order toward the given book-order target
price when moving there is profitable for the curve (strictly above the
current price for a sale, strictly below for a purchase), and nothing when
there is no target book order. -/
def orderToTarget (p : Nat) (target : Option Nat) (isAsk : Bool) :
    Option AmmOrder :=
  match target with
  | none => none
  | some t =>
      if isAsk then (if p < t then some ⟨p, t, true⟩ else none)
      else (if t < p then some ⟨p, t, false⟩ else none)

/-- Embedding of `OrderContainer` (book/order.rs is not in src/; the three
variants and the accessors below are those volume.rs uses). -/
inductive OrderContainer where
  | bookOrder (o : BookOrder)
  | bookOrderFragment (o : BookOrder)
  | amm (a : AmmOrder)
deriving DecidableEq

/-- Container price: a book order's limit price, or the current curve price
for a synthetic AMM order. -/
def OrderContainer.price : OrderContainer → Nat
  | .bookOrder o => o.price
  | .bookOrderFragment o => o.price
  | .amm a => a.startPrice

/-- Container quantity at a limit price: book orders ignore the provided
price (volume.rs comment), AMM orders offer only what the curve can
profitably sell up to it. -/
def OrderContainer.quantity (c : OrderContainer) (limitPrice : Nat) : Nat :=
  match c with
  | .bookOrder o => o.quantity
  | .bookOrderFragment o => o.quantity
  | .amm a => ammQuantity a limitPrice

/-- Whether the container is a synthetic AMM order. -/
def OrderContainer.isAmm : OrderContainer → Bool
  | .amm _ => true
  | _ => false

/-- Container `is_partial`: whether the underlying order kind permits
resting partial fills (a Standing order); AMM orders never do. -/
def OrderContainer.isPartialKind : OrderContainer → Bool
  | .bookOrder o => o.isStanding
  | .bookOrderFragment o => o.isStanding
  | .amm _ => false

/-- The book order carried by a non-AMM container. -/
def OrderContainer.bookData : OrderContainer → Option BookOrder
  | .bookOrder o => some o
  | .bookOrderFragment o => some o
  | .amm _ => none

/-- Embedding of `OrderContainer::fill` for non-AMM containers: the
remainder order after the given amount is consumed. -/
def OrderContainer.fillRemainder (c : OrderContainer) (amount : Nat) :
    Option BookOrder :=
  (c.bookData).map (fun b => { b with quantity := b.quantity - amount })

/-- Embedding of `NetAmmOrder` (orders module not in src/): the running net
quantity traded against the curve, direction-tagged. -/
structure NetAmmOrder where
  isBid : Bool
  t0    : Nat
  t1    : Nat
deriving DecidableEq

/-- Embedding of `NetAmmOrder::new`. -/
def NetAmmOrder.init (isBid : Bool) : NetAmmOrder := ⟨isBid, 0, 0⟩

/-- Embedding of `NetAmmOrder::add_quantity`. -/
def NetAmmOrder.addQuantity (n : NetAmmOrder) (d0 d1 : Nat) : NetAmmOrder :=
  { n with t0 := n.t0 + d0, t1 := n.t1 + d1 }

/-- Embedding of the matcher `Solution` accumulator (matcher module header
not in src/; the fields are the ones volume.rs writes). -/
structure Solution where
  price         : Option Nat
  totalVolume   : Nat
  partialVolume : Nat × Nat
  ammVolume     : Nat
  ammFinalPrice : Option Nat
deriving DecidableEq

/-- Embedding of `Solution::default()`. -/
def defaultSolution : Solution :=
  { price := none, totalVolume := 0, partialVolume := (0, 0),
    ammVolume := 0, ammFinalPrice := none }

/-- Embedding of `OrderBook` (book/mod.rs); the optional AMM snapshot is
reduced to its current curve price. -/
structure OrderBook where
  id   : Nat
  amm  : Option Nat
  bids : List BookOrder
  asks : List BookOrder
deriving DecidableEq

/-- Bid priority: descending price with a volume tie-break. -/
def bidRel (a b : BookOrder) : Prop :=
  b.price < a.price ∨ (b.price = a.price ∧ b.quantity ≤ a.quantity)

/-- Ask priority: ascending price with a volume tie-break. -/
def askRel (a b : BookOrder) : Prop :=
  a.price < b.price ∨ (a.price = b.price ∧ a.quantity ≤ b.quantity)

instance : DecidableRel bidRel := fun a b => by
  unfold bidRel; exact inferInstance

instance : DecidableRel askRel := fun a b => by
  unfold askRel; exact inferInstance

instance : IsTotal BookOrder bidRel :=
  ⟨by intro a b; unfold bidRel; omega⟩

instance : IsTrans BookOrder bidRel :=
  ⟨by intro a b c; unfold bidRel; omega⟩

instance : IsTotal BookOrder askRel :=
  ⟨by intro a b; unfold askRel; omega⟩

instance : IsTrans BookOrder askRel :=
  ⟨by intro a b c; unfold askRel; omega⟩

/-- Modelled from the spec: the sorting strategy (book/sort.rs is not in
src/) sorts bids descending and asks ascending by price with a volume
tie-break; one strategy variant stands for the default. -/
inductive SortStrategy where
  | priceVolume
deriving DecidableEq

/-- Modelled from the spec: `SortStrategy::sort_bids`. -/
def sortBids : SortStrategy → List BookOrder → List BookOrder
  | .priceVolume, l => List.insertionSort bidRel l

/-- Modelled from the spec: `SortStrategy::sort_asks`. -/
def sortAsks : SortStrategy → List BookOrder → List BookOrder
  | .priceVolume, l => List.insertionSort askRel l

/-- Embedding of `OrderBook::new`: apply the (default when absent) sorting
strategy to the given bid and ask sequences and assemble the book. -/
def OrderBook.new (id : Nat) (amm : Option Nat)
    (bids asks : List BookOrder) (sort : Option SortStrategy) : OrderBook :=
  let strategy := sort.getD SortStrategy.priceVolume
  { id := id, amm := amm,
    bids := sortBids strategy bids, asks := sortAsks strategy asks }

/-- Embedding of `OrderDirection` (book/order.rs). -/
inductive OrderDirection where
  | bid
  | ask
deriving DecidableEq

/-- Embedding of `OrderDirection::is_ask`. -/
def OrderDirection.isAsk : OrderDirection → Bool
  | .bid => false
  | .ask => true

/-- The checkpoint payload of `VolumeFillMatcher::save_checkpoint`: every
matcher field except the book reference, with no nested checkpoint. -/
structure MatcherCheckpoint where
  bidIdx           : Nat
  bidOutcomes      : List OrderFillState
  bidXpool         : List (Option OrderExclusion)
  askIdx           : Nat
  askOutcomes      : List OrderFillState
  askXpool         : List (Option OrderExclusion)
  ammPrice         : Option Nat
  ammOutcome       : Option NetAmmOrder
  partialRemainder : Option BookOrder
  results          : Solution
deriving DecidableEq

/-- Embedding of `VolumeFillMatcher` (volume.rs): the state threaded
through the fill loop.  `partialRemainder` is the `current_partial` field. -/
structure VolumeFillMatcher where
  book             : OrderBook
  bidIdx           : Nat
  bidOutcomes      : List OrderFillState
  bidXpool         : List (Option OrderExclusion)
  askIdx           : Nat
  askOutcomes      : List OrderFillState
  askXpool         : List (Option OrderExclusion)
  ammPrice         : Option Nat
  ammOutcome       : Option NetAmmOrder
  partialRemainder : Option BookOrder
  results          : Solution
  checkpoint       : Option MatcherCheckpoint
deriving DecidableEq

/-- Embedding of `VolumeFillMatcher::save_checkpoint`. -/
def saveCheckpoint (s : VolumeFillMatcher) : VolumeFillMatcher :=
  { s with checkpoint := some ⟨s.bidIdx, s.bidOutcomes, s.bidXpool,
      s.askIdx, s.askOutcomes, s.askXpool, s.ammPrice, s.ammOutcome,
      s.partialRemainder, s.results⟩ }

/-- Embedding of `VolumeFillMatcher::with_related`. -/
def VolumeFillMatcher.withRelated (book : OrderBook)
    (xpool : Option (List (Option OrderExclusion) ×
      List (Option OrderExclusion))) : VolumeFillMatcher :=
  let pools := xpool.getD
    (List.replicate book.bids.length none, List.replicate book.asks.length none)
  { book := book,
    bidIdx := 0,
    bidOutcomes := List.replicate book.bids.length OrderFillState.Unfilled,
    bidXpool := pools.1,
    askIdx := 0,
    askOutcomes := List.replicate book.asks.length OrderFillState.Unfilled,
    askXpool := pools.2,
    ammPrice := book.amm,
    ammOutcome := none,
    partialRemainder := none,
    results := defaultSolution,
    checkpoint := none }

/-- Embedding of `VolumeFillMatcher::new`: the initial state with itself
checkpointed as valid. -/
def VolumeFillMatcher.start (book : OrderBook) : VolumeFillMatcher :=
  saveCheckpoint (VolumeFillMatcher.withRelated book none)

/-- The index-advancing while loop of `try_next_order`: skip entries that
are explicitly dead or already resolved, stop at the first `Unfilled` entry
or at the end.  The loop runs at most `length - index` times; `fuel` is any
bound at least that. -/
def findNextIdx (outcomes : List OrderFillState)
    (related : List (Option OrderExclusion)) :
    Nat → Nat → Nat
  | 0, index => index
  | fuel + 1, index =>
      if index < outcomes.length then
        match outcomes.getD index OrderFillState.Unfilled,
              related.getD index none with
        | _, some (.dead _) => findNextIdx outcomes related fuel (index + 1)
        | .Unfilled, _ => index
        | _, _ => findNextIdx outcomes related fuel (index + 1)
      else index

/-- Embedding of `VolumeFillMatcher::try_next_order`: advance the cursor to
the next eligible order, consult the AMM for an order toward that book
order's price, and commit the cursor move only when no AMM order takes
precedence. -/
def tryNextOrder (s : VolumeFillMatcher) (direction : OrderDirection) :
    VolumeFillMatcher × Option AmmOrder :=
  match direction with
  | .bid =>
      let index := findNextIdx s.bidOutcomes s.bidXpool
        (s.bidOutcomes.length + 1) s.bidIdx
      let ammOrder := s.ammPrice.bind (fun p =>
        orderToTarget p ((s.book.bids.get? index).map (fun o => o.price))
          false)
      if ammOrder.isNone then ({ s with bidIdx := index }, ammOrder)
      else (s, ammOrder)
  | .ask =>
      let index := findNextIdx s.askOutcomes s.askXpool
        (s.askOutcomes.length + 1) s.askIdx
      let ammOrder := s.ammPrice.bind (fun p =>
        orderToTarget p ((s.book.asks.get? index).map (fun o => o.price))
          true)
      if ammOrder.isNone then ({ s with askIdx := index }, ammOrder)
      else (s, ammOrder)

/-- The non-remainder half of bid acquisition: the AMM order returned by
`try_next_order`, or else the book bid at the (freshly advanced) cursor. -/
def nextBidFromBook (s : VolumeFillMatcher) :
    VolumeFillMatcher × Option OrderContainer :=
  let r := tryNextOrder s OrderDirection.bid
  match r.2 with
  | some a => (r.1, some (OrderContainer.amm a))
  | none => (r.1, (r.1.book.bids.get? r.1.bidIdx).map OrderContainer.bookOrder)

/-- The bid-acquisition step at the top of the fill loop: the carried
partial remainder when it is a bid, otherwise an AMM or book order. -/
def nextBidContainer (s : VolumeFillMatcher) :
    VolumeFillMatcher × Option OrderContainer :=
  match s.partialRemainder with
  | some o =>
      if o.isBid then (s, some (OrderContainer.bookOrderFragment o))
      else nextBidFromBook s
  | none => nextBidFromBook s

/-- The non-remainder half of ask acquisition, symmetric to
`nextBidFromBook`. -/
def nextAskFromBook (s : VolumeFillMatcher) :
    VolumeFillMatcher × Option OrderContainer :=
  let r := tryNextOrder s OrderDirection.ask
  match r.2 with
  | some a => (r.1, some (OrderContainer.amm a))
  | none => (r.1, (r.1.book.asks.get? r.1.askIdx).map OrderContainer.bookOrder)

/-- The ask-acquisition step of the fill loop, symmetric to
`nextBidContainer`. -/
def nextAskContainer (s : VolumeFillMatcher) :
    VolumeFillMatcher × Option OrderContainer :=
  match s.partialRemainder with
  | some o =>
      if o.isBid = false then (s, some (OrderContainer.bookOrderFragment o))
      else nextAskFromBook s
  | none => nextAskFromBook s

/-- The AMM bookkeeping of a match step: update the curve price cursor,
accumulate AMM volume and final price, and fold the deltas into the running
`NetAmmOrder`. -/
def applyAmmFill (s : VolumeFillMatcher) (o : AmmOrder) (matched : Nat)
    (bidIsAmm : Bool) : VolumeFillMatcher :=
  let filled := o.fill matched
  let outcome := (s.ammOutcome.getD (NetAmmOrder.init bidIsAmm)).addQuantity
    filled.dT0 filled.dT1
  { s with
    ammPrice := some filled.endBound,
    ammOutcome := some outcome,
    results := { s.results with
      ammVolume := s.results.ammVolume + matched,
      ammFinalPrice := some filled.endBound } }

/-- Write the bid outcome at the current bid cursor. -/
def setBidOutcome (s : VolumeFillMatcher) (v : OrderFillState) :
    VolumeFillMatcher :=
  { s with bidOutcomes := s.bidOutcomes.set s.bidIdx v }

/-- Write the ask outcome at the current ask cursor. -/
def setAskOutcome (s : VolumeFillMatcher) (v : OrderFillState) :
    VolumeFillMatcher :=
  { s with askOutcomes := s.askOutcomes.set s.askIdx v }

/-- The volume bookkeeping at the top of a match step: total volume plus the
per-side partial-volume statistics. -/
def recordVolumes (s0 : VolumeFillMatcher) (bid ask : OrderContainer)
    (matched : Nat) : VolumeFillMatcher :=
  let r0 := { s0.results with totalVolume := s0.results.totalVolume + matched }
  let r1 := if bid.isPartialKind then
      { r0 with partialVolume := (r0.partialVolume.1 + matched, r0.partialVolume.2) }
    else r0
  let r2 := if ask.isPartialKind then
      { r1 with partialVolume := (r1.partialVolume.1, r1.partialVolume.2 + matched) }
    else r1
  { s0 with results := r2 }

/-- The AMM bookkeeping of a match step: when either side is the curve,
update the price cursor and accumulate AMM volume (the bid side takes
precedence in the Rust or-pattern). -/
def ammSideUpdate (s1 : VolumeFillMatcher) (bid ask : OrderContainer)
    (matched : Nat) : VolumeFillMatcher :=
  match bid, ask with
  | .amm o, _ => applyAmmFill s1 o matched bid.isAmm
  | _, .amm o => applyAmmFill s1 o matched bid.isAmm
  | _, _ => s1

/-- The `Ordering::Equal` settlement arm: annihilation, midpoint price,
both non-AMM sides complete, no carried partial, immediate checkpoint. -/
def settleEqual (s2 : VolumeFillMatcher) (bid ask : OrderContainer) :
    VolumeFillMatcher :=
  let sA := { s2 with results :=
    { s2.results with price := some ((ask.price + bid.price) / 2) } }
  let sB := if ask.isAmm then sA
    else setAskOutcome sA OrderFillState.CompleteFill
  let sC := if bid.isAmm then sB
    else setBidOutcome sB OrderFillState.CompleteFill
  saveCheckpoint { sC with partialRemainder := none }

/-- The `Ordering::Greater` settlement arm: ask completely filled, the bid
keeps a partial remainder; the recorded price is the bid price. -/
def settleGreater (s2 : VolumeFillMatcher) (bid ask : OrderContainer)
    (matched askQ : Nat) : VolumeFillMatcher :=
  let sA := { s2 with results :=
    { s2.results with price := some bid.price } }
  let sB := if ask.isAmm then sA
    else setAskOutcome sA OrderFillState.CompleteFill
  if bid.isAmm then { sB with partialRemainder := none }
  else
    let sC := setBidOutcome sB
      ((sB.bidOutcomes.getD sB.bidIdx OrderFillState.Unfilled).partialFill
        matched)
    { sC with partialRemainder := bid.fillRemainder askQ }

/-- The `Ordering::Less` settlement arm: bid completely filled, the ask
keeps a partial remainder; the recorded price is the ask price. -/
def settleLess (s2 : VolumeFillMatcher) (bid ask : OrderContainer)
    (matched bidQ : Nat) : VolumeFillMatcher :=
  let sA := { s2 with results :=
    { s2.results with price := some ask.price } }
  let sB := if bid.isAmm then sA
    else setBidOutcome sA OrderFillState.CompleteFill
  if ask.isAmm then { sB with partialRemainder := none }
  else
    let sC := setAskOutcome sB
      ((sB.askOutcomes.getD sB.askIdx OrderFillState.Unfilled).partialFill
        matched)
    { sC with partialRemainder := ask.fillRemainder bidQ }

/-- The good-state check at the bottom of the loop body: checkpoint when
there is no carried remainder or the remainder is a Standing order. -/
def goodStateCheckpoint (s3 : VolumeFillMatcher) : VolumeFillMatcher :=
  let goodState := match s3.partialRemainder with
    | some o => o.isStanding
    | none => true
  if goodState then saveCheckpoint s3 else s3

/-- The body of one successful match step of `VolumeFillMatcher::fill`
(volume.rs lines 189-277): record volumes, apply AMM bookkeeping when a side
is the curve, then settle by the comparison of the two quantities, and
checkpoint when the resulting state is structurally consistent. -/
def executeMatch (s0 : VolumeFillMatcher) (bid ask : OrderContainer)
    (bidQ askQ : Nat) : VolumeFillMatcher :=
  let matched := min askQ bidQ
  let s2 := ammSideUpdate (recordVolumes s0 bid ask matched) bid ask matched
  goodStateCheckpoint
    (if bidQ = askQ then settleEqual s2 bid ask
     else if askQ < bidQ then settleGreater s2 bid ask matched askQ
     else settleLess s2 bid ask matched bidQ)

/-- Embedding of `VolumeFillMatchEndReason`. -/
inductive VolumeFillMatchEndReason where
  | NoMoreBids
  | NoMoreAsks
  | BothSidesAMM
  | NoLongerCross
  | ZeroQuantity
deriving DecidableEq

/-- One iteration of the fill loop: either a termination reason together
with the matcher state at the moment of return, or the state after a
successful match. -/
def fillStep (s : VolumeFillMatcher) :
    (VolumeFillMatchEndReason × VolumeFillMatcher) ⊕ VolumeFillMatcher :=
  match nextBidContainer s with
  | (s1, none) => Sum.inl (VolumeFillMatchEndReason.NoMoreBids, s1)
  | (s1, some bid) =>
      match nextAskContainer s1 with
      | (s2, none) => Sum.inl (VolumeFillMatchEndReason.NoMoreAsks, s2)
      | (s2, some ask) =>
          if bid.isAmm && ask.isAmm then
            Sum.inl (VolumeFillMatchEndReason.BothSidesAMM, s2)
          else if bid.price < ask.price then
            Sum.inl (VolumeFillMatchEndReason.NoLongerCross, s2)
          else
            let askQ := ask.quantity bid.price
            let bidQ := bid.quantity ask.price
            if askQ = 0 ∨ bidQ = 0 then
              Sum.inl (VolumeFillMatchEndReason.ZeroQuantity, s2)
            else Sum.inr (executeMatch s2 bid ask bidQ askQ)

/-- The fill loop run for at most `fuel` iterations; `none` means the loop
did not terminate within that many iterations. -/
def fillFuel : Nat → VolumeFillMatcher →
    Option (VolumeFillMatchEndReason × VolumeFillMatcher)
  | 0, _ => none
  | fuel + 1, s =>
      match fillStep s with
      | Sum.inl r => some r
      | Sum.inr s2 => fillFuel fuel s2

/-! ### Measures and invariants for the fill loop -/

/-- Whether an outcome still counts as unresolved (anything but
`CompleteFill`). -/
def notComplete : OrderFillState → Bool
  | .CompleteFill => false
  | _ => true

/-- Number of outcomes not yet completely filled. -/
def countNotComplete (l : List OrderFillState) : Nat := l.countP notComplete

/-- The termination measure of the fill loop: unresolved outcomes across
both sides. -/
def matcherMeasure (s : VolumeFillMatcher) : Nat :=
  countNotComplete s.bidOutcomes + countNotComplete s.askOutcomes

/-- Invariant of the fill loop on a book without an AMM snapshot: outcome
vectors track the book sides, orders are direction-consistent, and a carried
partial remainder points at an unresolved outcome under its side's
cursor. -/
structure MatcherInv (s : VolumeFillMatcher) : Prop where
  ammNone : s.ammPrice = none
  bidLen  : s.bidOutcomes.length = s.book.bids.length
  askLen  : s.askOutcomes.length = s.book.asks.length
  bidsDir : ∀ o ∈ s.book.bids, o.isBid = true
  asksDir : ∀ o ∈ s.book.asks, o.isBid = false
  fragBid : ∀ o, s.partialRemainder = some o → o.isBid = true →
    s.bidIdx < s.bidOutcomes.length ∧
    notComplete (s.bidOutcomes.getD s.bidIdx OrderFillState.CompleteFill) = true
  fragAsk : ∀ o, s.partialRemainder = some o → o.isBid = false →
    s.askIdx < s.askOutcomes.length ∧
    notComplete (s.askOutcomes.getD s.askIdx OrderFillState.CompleteFill) = true

/-! ### Universal termination of the fill loop (AMM included)

A match step that consumes the synthetic AMM side completes no book order,
but it moves the curve cursor exactly to the nearer of the AMM target and
the opposing limit price, so the very next successful step must be a
book-against-book match that resolves an outcome.  The measure
`2 * unresolved + (post-AMM flag)` therefore decreases every iteration. -/

/-- The fill-loop invariant without any assumption on the AMM snapshot. -/
structure MatcherInvG (s : VolumeFillMatcher) : Prop where
  bidLen  : s.bidOutcomes.length = s.book.bids.length
  askLen  : s.askOutcomes.length = s.book.asks.length
  bidsDir : ∀ o ∈ s.book.bids, o.isBid = true
  asksDir : ∀ o ∈ s.book.asks, o.isBid = false
  fragBid : ∀ o, s.partialRemainder = some o → o.isBid = true →
    s.bidIdx < s.bidOutcomes.length ∧
    notComplete (s.bidOutcomes.getD s.bidIdx OrderFillState.CompleteFill) = true
  fragAsk : ∀ o, s.partialRemainder = some o → o.isBid = false →
    s.askIdx < s.askOutcomes.length ∧
    notComplete (s.askOutcomes.getD s.askIdx OrderFillState.CompleteFill) = true

/-- The state right after an ask-side AMM fill: a carried bid remainder,
a resting ask still in reach of the cursor, and the curve parked exactly at
the nearer of that ask's price and the remainder's price. -/
def PostAmmAsk (s : VolumeFillMatcher) : Prop :=
  ∃ frag bk, s.partialRemainder = some frag ∧ frag.isBid = true
    ∧ s.book.asks.get? (findNextIdx s.askOutcomes s.askXpool
        (s.askOutcomes.length + 1) s.askIdx) = some bk
    ∧ s.ammPrice = some (min bk.price frag.price)

/-- The state right after a bid-side AMM fill, symmetric to
`PostAmmAsk`. -/
def PostAmmBid (s : VolumeFillMatcher) : Prop :=
  ∃ frag bk, s.partialRemainder = some frag ∧ frag.isBid = false
    ∧ s.book.bids.get? (findNextIdx s.bidOutcomes s.bidXpool
        (s.bidOutcomes.length + 1) s.bidIdx) = some bk
    ∧ s.ammPrice = some (max bk.price frag.price)

/-! ### Concrete instances used by counterexamples and witnesses -/

/-- A round context with a roster of the given size. -/
def ceRoster (n : Nat) : ConsensusCtx :=
  { blockHeight := 0, roundLeader := 0,
    validators := List.replicate n ⟨0⟩, messages := [] }

/-- A concrete PreProposal signed once. -/
def cePre1 : PreProposal :=
  { blockHeight := 1, source := 7, limit := [(0, 10)], searcher := [],
    signature := ⟨7, 0⟩ }

/-- The same semantic content re-signed (different nonce). -/
def cePre2 : PreProposal := { cePre1 with signature := ⟨7, 1⟩ }

/-- A round context in which peer 7 is a validator at height 1. -/
def ceCtx : ConsensusCtx :=
  { blockHeight := 1, roundLeader := 7, validators := [⟨7⟩], messages := [] }

/-- A concrete outbound message. -/
def ceMsgA : ConsensusTransitionMessage :=
  ConsensusTransitionMessage.propagatePreProposalAgg ⟨[]⟩

/-- A second, different outbound message. -/
def ceMsgB : ConsensusTransitionMessage :=
  ConsensusTransitionMessage.propagateProposal ⟨2, 3, [], [], ⟨3, 0⟩⟩

/-- A transition function with two immediately available transitions in a
row (BidAggregation to PreProposalAggregation to ProposalWait); it leaves
the context untouched. -/
def ceTrans : PollTransition := fun ph c =>
  (match ph with
   | Phase.bidAggregation _ => some (some Phase.preProposalAggregation)
   | Phase.preProposalAggregation => some (some Phase.proposalWait)
   | _ => none, c)

/-- A machine in the initial phase with two queued outbound messages. -/
def ceMachine : RoundStateMachine :=
  { currentState := Phase.bidAggregation 3, consensusWaitDuration := 3,
    consensusArguments :=
      { blockHeight := 1, roundLeader := 7, validators := [⟨7⟩],
        messages := [ceMsgA, ceMsgB] } }

/-- A machine mid-round with a message still queued, about to be reset. -/
def ceResetMachine : RoundStateMachine :=
  { currentState := Phase.commitPhase, consensusWaitDuration := 3,
    consensusArguments :=
      { blockHeight := 1, roundLeader := 7, validators := [⟨7⟩],
        messages := [ceMsgA] } }

/-- A bid sequence that is not non-increasing by price. -/
def ceBidsUnsorted : List BookOrder :=
  [⟨0, 90, 1, true, false⟩, ⟨1, 100, 1, true, false⟩]

/-- A one-bid, one-ask crossing book without an AMM: the bid quantity
exceeds the ask quantity, so the ask side is fully consumed. -/
def ceBookPrice : OrderBook :=
  { id := 0, amm := none,
    bids := [{ orderId := 0, price := 100, quantity := 10, isBid := true,
               isStanding := false }],
    asks := [{ orderId := 1, price := 90, quantity := 4, isBid := false,
               isStanding := false }] }

/-- A book with one large bid, two asks and an AMM snapshot below both ask
prices: the matcher interleaves an AMM fill before each resting ask, so the
loop runs for five iterations. -/
def ceBookAmm : OrderBook :=
  { id := 0, amm := some 5,
    bids := [{ orderId := 0, price := 100, quantity := 50, isBid := true,
               isStanding := true }],
    asks := [{ orderId := 1, price := 10, quantity := 3, isBid := false,
               isStanding := false },
             { orderId := 2, price := 20, quantity := 4, isBid := false,
               isStanding := false }] }

/-! ### Helper lemmas: quorum counting -/

theorem getCount_bumpCount {O : Type} [DecidableEq O]
    (acc : List (O × Nat)) (o k : O) :
    getCount (bumpCount acc o) k =
      getCount acc k + (if k = o then 1 else 0) := by
  induction acc with
  | nil =>
      simp only [bumpCount, getCount]
      by_cases h : k = o
      · subst h; simp
      · rw [if_neg (fun hh => h hh.symm), if_neg h]
  | cons kv rest ih =>
      obtain ⟨k0, c0⟩ := kv
      simp only [bumpCount]
      by_cases h0 : k0 = o
      · subst h0
        rw [if_pos rfl]
        simp only [getCount]
        by_cases hk : k0 = k
        · subst hk; simp
        · rw [if_neg hk, if_neg hk, if_neg (fun hh => hk hh.symm)]
          omega
      · rw [if_neg h0]
        simp only [getCount]
        by_cases hk : k0 = k
        · subst hk
          rw [if_pos rfl, if_pos rfl, if_neg (fun hh => h0 hh)]
          omega
        · rw [if_neg hk, if_neg hk, ih]

theorem getCount_foldl_bumpCount {O : Type} [DecidableEq O]
    (l : List O) (acc : List (O × Nat)) (k : O) :
    getCount (l.foldl bumpCount acc) k = getCount acc k + countOcc l k := by
  induction l generalizing acc with
  | nil => simp [countOcc]
  | cons x rest ih =>
      simp only [List.foldl_cons, countOcc, ih, getCount_bumpCount]
      by_cases h : k = x
      · subst h
        simp only [if_pos rfl]
        omega
      · rw [if_neg h, if_neg (fun hh => h hh.symm)]
        omega

theorem getCount_orderCounts {O : Type} [DecidableEq O] (l : List O) (k : O) :
    getCount (orderCounts l) k = countOcc l k := by
  simpa [getCount] using getCount_foldl_bumpCount l [] k

theorem mem_keys_bumpCount {O : Type} [DecidableEq O]
    (acc : List (O × Nat)) (o k : O) :
    k ∈ (bumpCount acc o).map Prod.fst ↔ k ∈ acc.map Prod.fst ∨ k = o := by
  induction acc with
  | nil =>
      simp only [bumpCount, List.map_cons, List.map_nil]
      simp
  | cons kv rest ih =>
      obtain ⟨k0, c0⟩ := kv
      simp only [bumpCount]
      by_cases h0 : k0 = o
      · subst h0
        rw [if_pos rfl]
        simp only [List.map_cons, List.mem_cons]
        tauto
      · rw [if_neg h0]
        simp only [List.map_cons, List.mem_cons, ih]
        tauto

theorem mem_keys_foldl_bumpCount {O : Type} [DecidableEq O]
    (l : List O) (acc : List (O × Nat)) (k : O) :
    k ∈ (l.foldl bumpCount acc).map Prod.fst ↔
      k ∈ acc.map Prod.fst ∨ k ∈ l := by
  induction l generalizing acc with
  | nil => simp
  | cons x rest ih =>
      simp only [List.foldl_cons, ih, mem_keys_bumpCount, List.mem_cons]
      tauto

theorem nodup_keys_bumpCount {O : Type} [DecidableEq O]
    (acc : List (O × Nat)) (o : O)
    (h : (acc.map Prod.fst).Nodup) :
    ((bumpCount acc o).map Prod.fst).Nodup := by
  induction acc with
  | nil => simp [bumpCount]
  | cons kv rest ih =>
      obtain ⟨k0, c0⟩ := kv
      simp only [List.map_cons, List.nodup_cons] at h
      simp only [bumpCount]
      by_cases h0 : k0 = o
      · subst h0
        rw [if_pos rfl]
        simp only [List.map_cons, List.nodup_cons]
        exact h
      · rw [if_neg h0]
        simp only [List.map_cons, List.nodup_cons]
        refine ⟨?_, ih h.2⟩
        rw [mem_keys_bumpCount]
        rintro (hm | hm)
        · exact h.1 hm
        · exact h0 hm

theorem nodup_keys_foldl_bumpCount {O : Type} [DecidableEq O]
    (l : List O) (acc : List (O × Nat))
    (h : (acc.map Prod.fst).Nodup) :
    ((l.foldl bumpCount acc).map Prod.fst).Nodup := by
  induction l generalizing acc with
  | nil => simpa
  | cons x rest ih =>
      simp only [List.foldl_cons]
      exact ih _ (nodup_keys_bumpCount acc x h)

theorem getCount_of_mem {O : Type} [DecidableEq O] (acc : List (O × Nat)) :
    (acc.map Prod.fst).Nodup →
    ∀ k c, (k, c) ∈ acc → getCount acc k = c := by
  induction acc with
  | nil => intro _ k c hm; simp at hm
  | cons kv rest ih =>
      intro h k c hm
      obtain ⟨k0, c0⟩ := kv
      simp only [List.map_cons, List.nodup_cons] at h
      rcases List.mem_cons.1 hm with hm | hm
      · injection hm with h1 h2
        subst h1; subst h2
        simp [getCount]
      · have hk0 : k0 ≠ k := by
          intro he; subst he
          exact h.1 (List.mem_map.2 ⟨(k0, c), hm, rfl⟩)
        simp only [getCount, if_neg hk0]
        exact ih h.2 k c hm

theorem mem_of_getCount_keys {O : Type} [DecidableEq O]
    (acc : List (O × Nat)) (k : O) :
    k ∈ acc.map Prod.fst → (k, getCount acc k) ∈ acc := by
  induction acc with
  | nil => intro hk; simp at hk
  | cons kv rest ih =>
      intro hk
      obtain ⟨k0, c0⟩ := kv
      by_cases h0 : k0 = k
      · subst h0
        simp [getCount]
      · simp only [getCount, if_neg h0]
        simp only [List.map_cons, List.mem_cons] at hk
        rcases hk with hk | hk
        · exact absurd hk.symm h0
        · exact List.mem_cons_of_mem _ (ih hk)

theorem mem_filterQuorumOrders {O : Type} [DecidableEq O]
    (c : ConsensusCtx) (input : List O) (k : O) :
    k ∈ filterQuorumOrders c input ↔
      k ∈ input ∧ twoThirdsOfValidationSet c ≤ countOcc input k := by
  have hnodup : ((orderCounts input).map Prod.fst).Nodup :=
    nodup_keys_foldl_bumpCount input [] (by simp)
  constructor
  · intro h
    simp only [filterQuorumOrders, List.mem_map, List.mem_filter] at h
    obtain ⟨⟨k0, cnt⟩, ⟨hm, hcnt⟩, hfst⟩ := h
    cases hfst
    have hget : getCount (orderCounts input) k0 = cnt :=
      getCount_of_mem _ hnodup _ _ hm
    have hmem : k0 ∈ input := by
      have : k0 ∈ (orderCounts input).map Prod.fst :=
        List.mem_map.2 ⟨(k0, cnt), hm, rfl⟩
      simpa [orderCounts] using
        (mem_keys_foldl_bumpCount input [] k0).1 this
    refine ⟨hmem, ?_⟩
    rw [← getCount_orderCounts, hget]
    exact of_decide_eq_true hcnt
  · rintro ⟨hmem, hcnt⟩
    have hk : k ∈ (orderCounts input).map Prod.fst := by
      rw [orderCounts, mem_keys_foldl_bumpCount]
      exact Or.inr hmem
    have hpair := mem_of_getCount_keys (orderCounts input) k hk
    simp only [filterQuorumOrders, List.mem_map, List.mem_filter]
    refine ⟨(k, getCount (orderCounts input) k), ⟨hpair, ?_⟩, rfl⟩
    refine decide_eq_true ?_
    rw [getCount_orderCounts]
    exact hcnt

theorem nodup_filterQuorumOrders {O : Type} [DecidableEq O]
    (c : ConsensusCtx) (input : List O) :
    (filterQuorumOrders c input).Nodup := by
  have hnodup : ((orderCounts input).map Prod.fst).Nodup :=
    nodup_keys_foldl_bumpCount input [] (by simp)
  have hsub : (((orderCounts input).filter
      (fun kc => twoThirdsOfValidationSet c ≤ kc.2)).map Prod.fst).Sublist
      ((orderCounts input).map Prod.fst) :=
    ((orderCounts input).filter_sublist).map Prod.fst
  exact hnodup.sublist hsub

/-- C4: for every validator roster the quorum threshold computed by
`Consensus::two_thirds_of_validation_set` is exactly the ceiling of two
thirds of the roster size (characterized by its Galois property
`threshold ≤ m` iff `2N ≤ 3m`), and in particular rosters of size 5, 7
and 3 give thresholds 4, 5 and 2. -/
theorem two_thirds_quorum_spec :
    (∀ (c : ConsensusCtx) (m : Nat),
      twoThirdsOfValidationSet c ≤ m ↔ 2 * c.validators.length ≤ 3 * m)
    ∧ twoThirdsOfValidationSet (ceRoster 5) = 4
    ∧ twoThirdsOfValidationSet (ceRoster 7) = 5
    ∧ twoThirdsOfValidationSet (ceRoster 3) = 2 := by
  refine ⟨?_, by decide, by decide, by decide⟩
  intro c m
  unfold twoThirdsOfValidationSet rustDivCeil
  omega

/-- C3: an order contributed across the accepted pre-proposal aggregations
survives `Consensus::filter_quorum_orders` exactly when its occurrence
count in the flattened multiset reaches the quorum threshold; orders seen
fewer times are absent from the solver input, and the filtered output lists
each surviving order once. -/
theorem filter_quorum_orders_spec :
    ∀ (c : ConsensusCtx) (aggs : List PreProposalAggregation) (k : Nat × Nat),
      (k ∈ matchingEngineLimitInput c aggs ↔
        k ∈ flattenAggLimits aggs ∧
        twoThirdsOfValidationSet c ≤ countOcc (flattenAggLimits aggs) k)
      ∧ (matchingEngineLimitInput c aggs).Nodup := by
  intro c aggs k
  exact ⟨mem_filterQuorumOrders c (flattenAggLimits aggs) k,
    nodup_filterQuorumOrders c (flattenAggLimits aggs)⟩

/-- C2 counterexample: two PreProposals with identical semantic content but
different signatures (a re-signed copy) are unequal, hash differently, and
delivering both to the verification handler records two entries in the
seen-set and re-broadcasts twice, contrary to the claim of content-only
equality and single recording. -/
theorem preproposal_signature_equality_cex :
    cePre1.content = cePre2.content
    ∧ cePre1 ≠ cePre2
    ∧ preProposalHashStream cePre1 ≠ preProposalHashStream cePre2
    ∧ (handlePreProposal (handlePreProposal ceCtx 7 cePre1 []).1 7 cePre2
        (handlePreProposal ceCtx 7 cePre1 []).2).2.length = 2
    ∧ (handlePreProposal (handlePreProposal ceCtx 7 cePre1 []).1 7 cePre2
        (handlePreProposal ceCtx 7 cePre1 []).2).1.messages.length = 2 := by
  decide

/-- C2 (amended): equality and hashing of a `PreProposal` cover the whole
struct, signature included; content-only equality lives on the separate
`PreProposalContent` type.  Hence redelivering a bit-identical PreProposal
(same signature) is idempotent on the handler state, while changing only the
signature changes both the struct equality and the hash stream, though not
the content. -/
theorem preproposal_dedup_rule :
    (∀ (c : ConsensusCtx) (peer : Nat) (p : PreProposal)
        (set : List PreProposal),
      handlePreProposal (handlePreProposal c peer p set).1 peer p
        (handlePreProposal c peer p set).2 = handlePreProposal c peer p set)
    ∧ (∀ (p : PreProposal) (s : SignatureN),
        ({ p with signature := s } : PreProposal).content = p.content)
    ∧ (∀ (p : PreProposal) (s : SignatureN),
        (({ p with signature := s } : PreProposal) = p ↔ s = p.signature))
    ∧ (∀ (p : PreProposal) (s : SignatureN),
        (preProposalHashStream { p with signature := s } =
          preProposalHashStream p ↔ s = p.signature)) := by
  refine ⟨?_, ?_, ?_, ?_⟩
  · intro c peer p set
    simp only [handlePreProposal, handleProposalVerification]
    by_cases h1 : peer ∈ c.validators.map (fun v => v.peerId)
    · by_cases h2 : isValidPreProposal p c.blockHeight = true
      · by_cases h3 : p ∈ set
        · simp [h1, h2, h3]
        · simp [h1, h2, h3]
      · simp [h1, h2]
    · simp [h1]
  · intro p s
    rfl
  · intro p s
    constructor
    · intro h
      exact (congrArg PreProposal.signature h)
    · intro h
      subst h
      rfl
  · intro p s
    constructor
    · intro h
      simp only [preProposalHashStream] at h
      have hc : ({ p with signature := s } : PreProposal).content =
          p.content := rfl
      rw [hc] at h
      have htail := List.append_cancel_left h
      injection htail with h1 htail
      injection htail with h2 _
      cases s
      cases hp : p.signature
      simp only [hp] at h1 h2
      simp_all
    · intro h
      subst h
      rfl

/-- C5 counterexample: with a transition chain that is ready twice in a row
and two queued messages, one `poll_next` call advances exactly one phase
(another transition was immediately available but not taken) and returns
exactly one message, leaving the second queued — the claim that the call
repeats transitions until none is available and drains all messages fails. -/
theorem poll_next_single_step_cex :
    (pollNext ceTrans ceMachine).1.currentState = Phase.preProposalAggregation
    ∧ (ceTrans Phase.preProposalAggregation
        (pollNext ceTrans ceMachine).1.consensusArguments).1 ≠ none
    ∧ (pollNext ceTrans ceMachine).2 = some ceMsgA
    ∧ (pollNext ceTrans ceMachine).1.consensusArguments.messages = [ceMsgB] := by
  decide

/-- C5 (amended): one `poll_next` call polls the current phase once,
installing its successor only when that single poll is ready, and pops at
most the front message of the queue; the queue is drained across repeated
polls (in FIFO order), not within one call. -/
theorem poll_next_rule :
    (∀ (trans : PollTransition) (m : RoundStateMachine),
      (pollNext trans m).1.currentState =
        (match (trans m.currentState m.consensusArguments).1 with
         | some (some s) => s
         | _ => m.currentState)
      ∧ (pollNext trans m).2 =
          (trans m.currentState m.consensusArguments).2.messages.head?
      ∧ (pollNext trans m).1.consensusArguments.messages =
          (trans m.currentState m.consensusArguments).2.messages.tail)
    ∧ (∀ m : RoundStateMachine,
        drainMessages idTrans m.consensusArguments.messages.length m =
          m.consensusArguments.messages) := by
  constructor
  · intro trans m
    unfold pollNext
    rcases hmsg : (trans m.currentState m.consensusArguments).2.messages with
      _ | ⟨msg, rest⟩ <;> simp [hmsg]
  · have key : ∀ (msgs : List ConsensusTransitionMessage)
        (m : RoundStateMachine), m.consensusArguments.messages = msgs →
        drainMessages idTrans msgs.length m = msgs := by
      intro msgs
      induction msgs with
      | nil => intro m h; rfl
      | cons a t ih =>
          intro m h
          have hstep : pollNext idTrans m =
              ({ m with consensusArguments :=
                  { m.consensusArguments with messages := t } }, some a) := by
            simp only [pollNext, idTrans]
            rw [h]
          simp only [List.length_cons, drainMessages, hstep]
          congr 1
          exact ih _ rfl
    intro m
    exact key _ m rfl

/-- C6 counterexample: resetting a machine that still has a queued outbound
message leaves that message in the Round Context queue; the claim that no
queued data survives a reset fails. -/
theorem reset_round_messages_cex :
    (resetRound ceResetMachine 2 9).consensusArguments.messages = [ceMsgA]
    ∧ (resetRound ceResetMachine 2 9).consensusArguments.messages ≠ [] := by
  decide

/-- C6 (amended): `reset_round` installs the new height and leader and
reinstates the initial BidAggregation phase (discarding the old phase and
all state held inside it), but the outbound message queue — and every other
Round Context field — survives the reset unchanged. -/
theorem reset_round_rule :
    ∀ (m : RoundStateMachine) (newBlock newLeader : Nat),
      (resetRound m newBlock newLeader).consensusArguments.blockHeight = newBlock
      ∧ (resetRound m newBlock newLeader).consensusArguments.roundLeader = newLeader
      ∧ (resetRound m newBlock newLeader).currentState =
          Phase.bidAggregation m.consensusWaitDuration
      ∧ (resetRound m newBlock newLeader).consensusArguments.messages =
          m.consensusArguments.messages
      ∧ (resetRound m newBlock newLeader).consensusArguments.validators =
          m.consensusArguments.validators
      ∧ (resetRound m newBlock newLeader).consensusWaitDuration =
          m.consensusWaitDuration := by
  intro m newBlock newLeader
  exact ⟨rfl, rfl, rfl, rfl, rfl, rfl⟩

/-- C8: `verify_proposal` accepts an inbound Proposal exactly when the
sender is the round leader and the proposal passes validity at the round
height; on acceptance it enqueues exactly one re-broadcast, on rejection it
changes nothing; and the (spec-modelled) proposal phase wrapper makes a
second delivery of the same proposal a no-op, so the re-broadcast happens
at most once. -/
theorem verify_proposal_spec :
    ∀ (c : ConsensusCtx) (peer : Nat) (p : Proposal),
      ((verifyProposal c peer p).2 = some p ↔
        (c.roundLeader = peer ∧ isValidProposal p c.blockHeight = true))
      ∧ ((verifyProposal c peer p).1.messages =
          if c.roundLeader = peer ∧ isValidProposal p c.blockHeight = true
          then c.messages ++ [ConsensusTransitionMessage.propagateProposal p]
          else c.messages)
      ∧ (proposalPhaseDeliver (proposalPhaseDeliver (c, none) peer p) peer p =
          proposalPhaseDeliver (c, none) peer p) := by
  intro c peer p
  by_cases h1 : c.roundLeader = peer
  · by_cases h2 : isValidProposal p c.blockHeight = true
    · refine ⟨?_, ?_, ?_⟩
      · simp [verifyProposal, h1, h2]
      · simp [verifyProposal, h1, h2]
      · simp [proposalPhaseDeliver, verifyProposal, h1, h2]
    · refine ⟨?_, ?_, ?_⟩
      · simp [verifyProposal, h1, h2]
      · simp [verifyProposal, h1, h2]
      · simp [proposalPhaseDeliver, verifyProposal, h1, h2]
  · refine ⟨?_, ?_, ?_⟩
    · simp [verifyProposal, h1]
    · simp [verifyProposal, h1]
    · simp [proposalPhaseDeliver, verifyProposal, h1]

theorem zip_all_eq_of_take_eq :
    ∀ (l1 l2 : List Nat),
      l1.take (min l1.length l2.length) = l2.take (min l1.length l2.length) →
      ((l1.zip l2).all (fun pv => pv.1 == pv.2)) = true := by
  intro l1
  induction l1 with
  | nil => intro l2 _; rfl
  | cons a t1 ih =>
      intro l2 h
      cases l2 with
      | nil => rfl
      | cons b t2 =>
          simp only [List.length_cons, Nat.succ_min_succ, List.take_succ_cons,
            List.cons.injEq] at h
          obtain ⟨hab, ht⟩ := h
          subst hab
          simp only [List.zip_cons_cons, List.all_cons, beq_self_eq_true,
            Bool.true_and]
          exact ih t2 ht

/-- C10: the finalization comparison only examines index pairs up to the
shorter of the two sorted solution lists: whenever the sorted lists agree on
that common part yet have different lengths, `FinalizationState` reports
agreement (`true`) instead of a violation. -/
theorem finalization_zip_truncates :
    ∀ (ps vs : List Nat),
      (sortSolutions ps).take
          (min (sortSolutions ps).length (sortSolutions vs).length) =
        (sortSolutions vs).take
          (min (sortSolutions ps).length (sortSolutions vs).length) →
      (sortSolutions ps).length ≠ (sortSolutions vs).length →
      verificationAgrees ps vs = true := by
  intro ps vs htake _
  unfold verificationAgrees
  exact zip_all_eq_of_take_eq _ _ htake

/-- C10 witness: the sorted claim list `[1, 2]` is a strict truncation of
the sorted recomputed list `[1, 2, 3]`, yet verification reports
agreement. -/
theorem finalization_zip_truncates_witness :
    verificationAgrees [2, 1] [3, 1, 2] = true :=
  finalization_zip_truncates [2, 1] [3, 1, 2] (by decide) (by decide)

theorem sorted_pairwise_of_bidRel (l : List BookOrder) :
    (List.insertionSort bidRel l).Pairwise (fun a b => b.price ≤ a.price) := by
  have hs : (List.insertionSort bidRel l).Sorted bidRel :=
    List.sorted_insertionSort bidRel l
  exact List.Pairwise.imp (fun {a b} hab => by
    rcases hab with h | ⟨h, _⟩
    · omega
    · omega) hs

theorem sorted_pairwise_of_askRel (l : List BookOrder) :
    (List.insertionSort askRel l).Pairwise (fun a b => a.price ≤ b.price) := by
  have hs : (List.insertionSort askRel l).Sorted askRel :=
    List.sorted_insertionSort askRel l
  exact List.Pairwise.imp (fun {a b} hab => by
    rcases hab with h | ⟨h, _⟩
    · omega
    · omega) hs

/-- C9 counterexample: `OrderBook::new` does not reject a bid sequence that
is not non-increasing — construction succeeds on such an input and silently
replaces it with its sorted permutation, so the constructed book's bid
sequence differs from the sequence it received. -/
theorem order_book_new_sorts_cex :
    (¬ ceBidsUnsorted.Pairwise (fun a b => b.price ≤ a.price))
    ∧ (OrderBook.new 0 none ceBidsUnsorted [] none).bids =
        [⟨1, 100, 1, true, false⟩, ⟨0, 90, 1, true, false⟩]
    ∧ (OrderBook.new 0 none ceBidsUnsorted [] none).bids ≠ ceBidsUnsorted := by
  refine ⟨by decide, rfl, by decide⟩

/-- C9 (amended): `OrderBook::new` establishes rather than checks the
sortedness invariant: whatever bid and ask sequences it receives, the
constructed book's bid prices are non-increasing and its ask prices are
non-decreasing, because construction sorts both sides with the (default)
strategy; no input is rejected. -/
theorem order_book_new_sorted :
    ∀ (id : Nat) (amm : Option Nat) (bids asks : List BookOrder)
      (sort : Option SortStrategy),
      ((OrderBook.new id amm bids asks sort).bids).Pairwise
        (fun a b => b.price ≤ a.price)
      ∧ ((OrderBook.new id amm bids asks sort).asks).Pairwise
        (fun a b => a.price ≤ b.price) := by
  intro id amm bids asks sort
  cases hstrat : sort.getD SortStrategy.priceVolume
  constructor
  · show ((sortBids (sort.getD SortStrategy.priceVolume) bids).Pairwise _)
    rw [hstrat]
    exact sorted_pairwise_of_bidRel bids
  · show ((sortAsks (sort.getD SortStrategy.priceVolume) asks).Pairwise _)
    rw [hstrat]
    exact sorted_pairwise_of_askRel asks

/-! ### Helper lemmas: the settlement price of one match step -/

theorem results_saveCheckpoint (s : VolumeFillMatcher) :
    (saveCheckpoint s).results = s.results := rfl

theorem results_goodStateCheckpoint (s : VolumeFillMatcher) :
    (goodStateCheckpoint s).results = s.results := by
  simp only [goodStateCheckpoint]
  split <;> rfl

theorem price_ammSideUpdate (s : VolumeFillMatcher)
    (bid ask : OrderContainer) (m : Nat) :
    (ammSideUpdate s bid ask m).results.price = s.results.price := by
  cases bid <;> cases ask <;> rfl

theorem price_settleEqual (s : VolumeFillMatcher) (bid ask : OrderContainer) :
    (settleEqual s bid ask).results.price =
      some ((ask.price + bid.price) / 2) := by
  cases hA : ask.isAmm <;> cases hB : bid.isAmm <;>
    simp only [settleEqual, hA, hB] <;> rfl

theorem price_settleGreater (s : VolumeFillMatcher)
    (bid ask : OrderContainer) (m q : Nat) :
    (settleGreater s bid ask m q).results.price = some bid.price := by
  cases hA : ask.isAmm <;> cases hB : bid.isAmm <;>
    simp only [settleGreater, hA, hB] <;> rfl

theorem price_settleLess (s : VolumeFillMatcher)
    (bid ask : OrderContainer) (m q : Nat) :
    (settleLess s bid ask m q).results.price = some ask.price := by
  cases hA : ask.isAmm <;> cases hB : bid.isAmm <;>
    simp only [settleLess, hA, hB] <;> rfl

theorem executeMatch_price (s0 : VolumeFillMatcher)
    (bid ask : OrderContainer) (bidQ askQ : Nat) :
    (executeMatch s0 bid ask bidQ askQ).results.price =
      some (if bidQ = askQ then (ask.price + bid.price) / 2
            else if askQ < bidQ then bid.price else ask.price) := by
  simp only [executeMatch, results_goodStateCheckpoint]
  by_cases h1 : bidQ = askQ
  · rw [if_pos h1, if_pos h1, price_settleEqual]
  · rw [if_neg h1, if_neg h1]
    by_cases h2 : askQ < bidQ
    · rw [if_pos h2, if_pos h2, price_settleGreater]
    · rw [if_neg h2, if_neg h2, price_settleLess]

/-- C1 (amended): in every matching step of the fill loop in which a bid and
an ask are both available, at most one side is the AMM, the prices cross and
both quantities are positive, the recorded settlement price is the integer
midpoint of the two prices when the quantities are exactly equal, and
otherwise the price of the side that was NOT fully consumed (the side with
the larger quantity, which keeps a remainder): the bid price when the bid
quantity exceeds the ask quantity, the ask price when the ask quantity
exceeds the bid quantity. -/
theorem settlement_price_rule :
    ∀ (s s1 s2 : VolumeFillMatcher) (bid ask : OrderContainer),
      nextBidContainer s = (s1, some bid) →
      nextAskContainer s1 = (s2, some ask) →
      (bid.isAmm && ask.isAmm) = false →
      ¬ bid.price < ask.price →
      ask.quantity bid.price ≠ 0 →
      bid.quantity ask.price ≠ 0 →
      ∃ sOut, fillStep s = Sum.inr sOut ∧
        sOut.results.price = some
          (if bid.quantity ask.price = ask.quantity bid.price
           then (ask.price + bid.price) / 2
           else if ask.quantity bid.price < bid.quantity ask.price
           then bid.price else ask.price) := by
  intro s s1 s2 bid ask hb ha hamm hcross haq hbq
  refine ⟨executeMatch s2 bid ask (bid.quantity ask.price)
    (ask.quantity bid.price), ?_, ?_⟩
  · simp only [fillStep, hb, ha, hamm]
    rw [if_neg hcross, if_neg (not_or.mpr ⟨haq, hbq⟩)]
    simp
  · exact executeMatch_price s2 bid ask _ _

/-- C1 witness: in the book with one bid (price 100, quantity 10) and one
ask (price 90, quantity 4), the first fill step matches quantities 10
against 4 and, per the rule, records the bid price 100 (the bid was not
fully consumed). -/
theorem settlement_price_rule_witness :
    nextBidContainer (VolumeFillMatcher.start ceBookPrice) =
      (VolumeFillMatcher.start ceBookPrice,
        some (OrderContainer.bookOrder ⟨0, 100, 10, true, false⟩))
    ∧ nextAskContainer (VolumeFillMatcher.start ceBookPrice) =
      (VolumeFillMatcher.start ceBookPrice,
        some (OrderContainer.bookOrder ⟨1, 90, 4, false, false⟩))
    ∧ (∃ sOut, fillStep (VolumeFillMatcher.start ceBookPrice) = Sum.inr sOut ∧
        sOut.results.price = some
          (if (10 : Nat) = 4 then (90 + 100) / 2
           else if (4 : Nat) < 10 then 100 else 90)) :=
  ⟨by decide, by decide,
    settlement_price_rule (VolumeFillMatcher.start ceBookPrice)
      (VolumeFillMatcher.start ceBookPrice)
      (VolumeFillMatcher.start ceBookPrice)
      (OrderContainer.bookOrder ⟨0, 100, 10, true, false⟩)
      (OrderContainer.bookOrder ⟨1, 90, 4, false, false⟩)
      (by decide) (by decide) (by decide) (by decide) (by decide) (by decide)⟩

/-- C1 counterexample: in the same book the crossing step fully consumes the
ask (price 90, the smaller quantity 4) and leaves the bid partially filled,
yet the price recorded for the step is the bid price 100, not the 90 the
claim predicts for the fully consumed side. -/
theorem settlement_price_consumed_side_cex :
    (fillFuel 3 (VolumeFillMatcher.start ceBookPrice)).map
        (fun rs => (rs.2.results.price, rs.2.bidOutcomes, rs.2.askOutcomes)) =
      some (some 100, [OrderFillState.PartialFill 4],
        [OrderFillState.CompleteFill])
    ∧ ceBookPrice.asks.map (fun o => o.price) = [90]
    ∧ (some (100 : Nat) : Option Nat) ≠ some 90 := by
  decide

/-! ### Helper lemmas: termination of the fill loop without an AMM -/

theorem getD_irrel_of_lt (l : List OrderFillState) (i : Nat)
    (d1 d2 : OrderFillState) (h : i < l.length) : l.getD i d1 = l.getD i d2 := by
  simp [List.getD_eq_getElem?_getD, List.getElem?_eq_getElem h]

theorem getD_set_self (l : List OrderFillState) (i : Nat)
    (v d : OrderFillState) (h : i < l.length) : (l.set i v).getD i d = v := by
  simp [List.getD_eq_getElem?_getD, List.getElem?_set_eq_of_lt, h]

theorem countP_replicate_of (n : Nat) (x : OrderFillState)
    (p : OrderFillState → Bool) :
    (List.replicate n x).countP p = if p x then n else 0 := by
  induction n with
  | zero => simp
  | succ m ih =>
      simp [List.replicate_succ, List.countP_cons, ih]
      split <;> omega

theorem countP_set_balance (p : OrderFillState → Bool) :
    ∀ (l : List OrderFillState) (i : Nat) (v : OrderFillState),
      i < l.length →
      (l.set i v).countP p +
          (if p (l.getD i OrderFillState.CompleteFill) then 1 else 0) =
        l.countP p + (if p v then 1 else 0) := by
  intro l
  induction l with
  | nil => intro i v h; simp at h
  | cons a t ih =>
      intro i v h
      cases i with
      | zero =>
          simp only [List.set_cons_zero, List.countP_cons, List.getD_cons_zero]
          omega
      | succ n =>
          have hlt : n < t.length := by
            simp only [List.length_cons] at h
            omega
          have hb := ih n v hlt
          simp only [List.set_cons_succ, List.countP_cons, List.getD_cons_succ]
          omega

theorem notComplete_partialFill (x : OrderFillState) (m : Nat)
    (h : notComplete x = true) :
    notComplete (x.partialFill m) = true := by
  cases x <;> simp_all [OrderFillState.partialFill, notComplete]

theorem findNextIdx_unfilled (outcomes : List OrderFillState)
    (related : List (Option OrderExclusion)) :
    ∀ (fuel idx : Nat), outcomes.length - idx ≤ fuel →
      findNextIdx outcomes related fuel idx < outcomes.length →
      outcomes.getD (findNextIdx outcomes related fuel idx)
        OrderFillState.Unfilled = OrderFillState.Unfilled := by
  intro fuel
  induction fuel with
  | zero =>
      intro idx hle hlt
      simp only [findNextIdx] at hlt
      omega
  | succ n ih =>
      intro idx hle hlt
      by_cases h : idx < outcomes.length
      · simp only [findNextIdx, if_pos h] at hlt ⊢
        rcases hr : related.getD idx none with _ | excl
        · rcases ho : outcomes.getD idx OrderFillState.Unfilled with _ | q | _
          · exact ho
          · rw [hr, ho] at hlt
            exact ih (idx + 1) (by omega) hlt
          · rw [hr, ho] at hlt
            exact ih (idx + 1) (by omega) hlt
        · rcases excl with t | t
          · rcases ho : outcomes.getD idx OrderFillState.Unfilled with _ | q | _
            · exact ho
            · rw [hr, ho] at hlt
              exact ih (idx + 1) (by omega) hlt
            · rw [hr, ho] at hlt
              exact ih (idx + 1) (by omega) hlt
          · rcases ho : outcomes.getD idx OrderFillState.Unfilled with _ | q | _ <;>
              rw [hr, ho] at hlt <;>
              exact ih (idx + 1) (by omega) hlt
      · simp only [findNextIdx, if_neg h] at hlt
        omega

theorem tryNextOrder_bid_of_ammNone (s : VolumeFillMatcher)
    (h : s.ammPrice = none) :
    tryNextOrder s OrderDirection.bid =
      ({ s with bidIdx :=
          findNextIdx s.bidOutcomes s.bidXpool (s.bidOutcomes.length + 1) s.bidIdx },
       none) := by
  simp only [tryNextOrder, h]
  rfl

theorem tryNextOrder_ask_of_ammNone (s : VolumeFillMatcher)
    (h : s.ammPrice = none) :
    tryNextOrder s OrderDirection.ask =
      ({ s with askIdx :=
          findNextIdx s.askOutcomes s.askXpool (s.askOutcomes.length + 1) s.askIdx },
       none) := by
  simp only [tryNextOrder, h]
  rfl

theorem nextBidFromBook_char (s sb : VolumeFillMatcher)
    (bopt : Option OrderContainer) (hamm : s.ammPrice = none)
    (h : nextBidFromBook s = (sb, bopt)) :
    sb = { s with bidIdx :=
        findNextIdx s.bidOutcomes s.bidXpool (s.bidOutcomes.length + 1) s.bidIdx }
    ∧ bopt = (s.book.bids.get? sb.bidIdx).map OrderContainer.bookOrder := by
  have hr := tryNextOrder_bid_of_ammNone s hamm
  simp only [nextBidFromBook, hr] at h
  rw [Prod.mk.injEq] at h
  refine ⟨h.1.symm, ?_⟩
  rw [← h.2, ← h.1]

theorem nextAskFromBook_char (s sb : VolumeFillMatcher)
    (bopt : Option OrderContainer) (hamm : s.ammPrice = none)
    (h : nextAskFromBook s = (sb, bopt)) :
    sb = { s with askIdx :=
        findNextIdx s.askOutcomes s.askXpool (s.askOutcomes.length + 1) s.askIdx }
    ∧ bopt = (s.book.asks.get? sb.askIdx).map OrderContainer.bookOrder := by
  have hr := tryNextOrder_ask_of_ammNone s hamm
  simp only [nextAskFromBook, hr] at h
  rw [Prod.mk.injEq] at h
  refine ⟨h.1.symm, ?_⟩
  rw [← h.2, ← h.1]

theorem nextBidContainer_char (s sb : VolumeFillMatcher)
    (bopt : Option OrderContainer) (hamm : s.ammPrice = none)
    (hlen : s.bidOutcomes.length = s.book.bids.length)
    (h : nextBidContainer s = (sb, bopt)) :
    sb.book = s.book ∧ sb.bidOutcomes = s.bidOutcomes
    ∧ sb.askOutcomes = s.askOutcomes ∧ sb.askIdx = s.askIdx
    ∧ sb.partialRemainder = s.partialRemainder ∧ sb.ammPrice = none
    ∧ (∀ b, bopt = some (OrderContainer.bookOrder b) →
        sb.bidIdx < s.book.bids.length
        ∧ s.book.bids.get? sb.bidIdx = some b
        ∧ sb.bidOutcomes.getD sb.bidIdx OrderFillState.CompleteFill =
            OrderFillState.Unfilled)
    ∧ (∀ o, bopt = some (OrderContainer.bookOrderFragment o) →
        s.partialRemainder = some o ∧ o.isBid = true ∧ sb = s)
    ∧ (∀ a, bopt ≠ some (OrderContainer.amm a)) := by
  have hbook : nextBidFromBook s = (sb, bopt) →
      sb.book = s.book ∧ sb.bidOutcomes = s.bidOutcomes
      ∧ sb.askOutcomes = s.askOutcomes ∧ sb.askIdx = s.askIdx
      ∧ sb.partialRemainder = s.partialRemainder ∧ sb.ammPrice = none
      ∧ (∀ b, bopt = some (OrderContainer.bookOrder b) →
          sb.bidIdx < s.book.bids.length
          ∧ s.book.bids.get? sb.bidIdx = some b
          ∧ sb.bidOutcomes.getD sb.bidIdx OrderFillState.CompleteFill =
              OrderFillState.Unfilled)
      ∧ (∀ o, bopt ≠ some (OrderContainer.bookOrderFragment o))
      ∧ (∀ a, bopt ≠ some (OrderContainer.amm a)) := by
    intro hfb
    obtain ⟨hsb, hbo⟩ := nextBidFromBook_char s sb bopt hamm hfb
    subst hsb
    refine ⟨rfl, rfl, rfl, rfl, rfl, hamm, ?_, ?_, ?_⟩
    · intro b hb
      rw [hbo] at hb
      obtain ⟨b0, hget, hinj⟩ := Option.map_eq_some'.mp hb
      injection hinj with hbb
      subst hbb
      obtain ⟨hlt, -⟩ := List.get?_eq_some.mp hget
      refine ⟨hlt, hget, ?_⟩
      have hlt3 : findNextIdx s.bidOutcomes s.bidXpool
          (s.bidOutcomes.length + 1) s.bidIdx < s.book.bids.length := hlt
      have hlt2 : findNextIdx s.bidOutcomes s.bidXpool
          (s.bidOutcomes.length + 1) s.bidIdx < s.bidOutcomes.length := by
        omega
      have hu := findNextIdx_unfilled s.bidOutcomes s.bidXpool
        (s.bidOutcomes.length + 1) s.bidIdx (by omega) hlt2
      rw [getD_irrel_of_lt _ _ _ OrderFillState.Unfilled hlt2]
      exact hu
    · intro o2 ho2
      rw [ho2] at hbo
      obtain ⟨b0, -, hinj⟩ := Option.map_eq_some'.mp hbo.symm
      exact OrderContainer.noConfusion hinj
    · intro a ha
      rw [ha] at hbo
      obtain ⟨b0, -, hinj⟩ := Option.map_eq_some'.mp hbo.symm
      exact OrderContainer.noConfusion hinj
  rcases hpr : s.partialRemainder with _ | o
  · simp only [nextBidContainer, hpr] at h
    obtain ⟨f1, f2, f3, f4, f5, f6, f7, f8, f9⟩ := hbook h
    rw [hpr] at f5
    refine ⟨f1, f2, f3, f4, f5, f6, f7, ?_, f9⟩
    intro o2 ho2
    exact absurd ho2 (f8 o2)
  · by_cases hob : o.isBid = true
    · simp only [nextBidContainer, hpr, if_pos hob] at h
      rw [Prod.mk.injEq] at h
      obtain ⟨h1, h2⟩ := h
      subst h1
      subst h2
      refine ⟨rfl, rfl, rfl, rfl, hpr, hamm, ?_, ?_, ?_⟩
      · intro b hb
        injection hb with hb2
        exact OrderContainer.noConfusion hb2
      · intro o2 ho2
        injection ho2 with ho3
        injection ho3 with ho4
        subst ho4
        exact ⟨rfl, hob, rfl⟩
      · intro a ha
        injection ha with ha2
        exact OrderContainer.noConfusion ha2
    · simp only [nextBidContainer, hpr, if_neg hob] at h
      obtain ⟨f1, f2, f3, f4, f5, f6, f7, f8, f9⟩ := hbook h
      rw [hpr] at f5
      refine ⟨f1, f2, f3, f4, f5, f6, f7, ?_, f9⟩
      intro o2 ho2
      exact absurd ho2 (f8 o2)

theorem nextAskContainer_char (s sb : VolumeFillMatcher)
    (bopt : Option OrderContainer) (hamm : s.ammPrice = none)
    (hlen : s.askOutcomes.length = s.book.asks.length)
    (h : nextAskContainer s = (sb, bopt)) :
    sb.book = s.book ∧ sb.bidOutcomes = s.bidOutcomes
    ∧ sb.askOutcomes = s.askOutcomes ∧ sb.bidIdx = s.bidIdx
    ∧ sb.partialRemainder = s.partialRemainder ∧ sb.ammPrice = none
    ∧ (∀ b, bopt = some (OrderContainer.bookOrder b) →
        sb.askIdx < s.book.asks.length
        ∧ s.book.asks.get? sb.askIdx = some b
        ∧ sb.askOutcomes.getD sb.askIdx OrderFillState.CompleteFill =
            OrderFillState.Unfilled)
    ∧ (∀ o, bopt = some (OrderContainer.bookOrderFragment o) →
        s.partialRemainder = some o ∧ o.isBid = false ∧ sb = s)
    ∧ (∀ a, bopt ≠ some (OrderContainer.amm a)) := by
  have hbook : nextAskFromBook s = (sb, bopt) →
      sb.book = s.book ∧ sb.bidOutcomes = s.bidOutcomes
      ∧ sb.askOutcomes = s.askOutcomes ∧ sb.bidIdx = s.bidIdx
      ∧ sb.partialRemainder = s.partialRemainder ∧ sb.ammPrice = none
      ∧ (∀ b, bopt = some (OrderContainer.bookOrder b) →
          sb.askIdx < s.book.asks.length
          ∧ s.book.asks.get? sb.askIdx = some b
          ∧ sb.askOutcomes.getD sb.askIdx OrderFillState.CompleteFill =
              OrderFillState.Unfilled)
      ∧ (∀ o, bopt ≠ some (OrderContainer.bookOrderFragment o))
      ∧ (∀ a, bopt ≠ some (OrderContainer.amm a)) := by
    intro hfb
    obtain ⟨hsb, hbo⟩ := nextAskFromBook_char s sb bopt hamm hfb
    subst hsb
    refine ⟨rfl, rfl, rfl, rfl, rfl, hamm, ?_, ?_, ?_⟩
    · intro b hb
      rw [hbo] at hb
      obtain ⟨b0, hget, hinj⟩ := Option.map_eq_some'.mp hb
      injection hinj with hbb
      subst hbb
      obtain ⟨hlt, -⟩ := List.get?_eq_some.mp hget
      refine ⟨hlt, hget, ?_⟩
      have hlt3 : findNextIdx s.askOutcomes s.askXpool
          (s.askOutcomes.length + 1) s.askIdx < s.book.asks.length := hlt
      have hlt2 : findNextIdx s.askOutcomes s.askXpool
          (s.askOutcomes.length + 1) s.askIdx < s.askOutcomes.length := by
        omega
      have hu := findNextIdx_unfilled s.askOutcomes s.askXpool
        (s.askOutcomes.length + 1) s.askIdx (by omega) hlt2
      rw [getD_irrel_of_lt _ _ _ OrderFillState.Unfilled hlt2]
      exact hu
    · intro o2 ho2
      rw [ho2] at hbo
      obtain ⟨b0, -, hinj⟩ := Option.map_eq_some'.mp hbo.symm
      exact OrderContainer.noConfusion hinj
    · intro a ha
      rw [ha] at hbo
      obtain ⟨b0, -, hinj⟩ := Option.map_eq_some'.mp hbo.symm
      exact OrderContainer.noConfusion hinj
  rcases hpr : s.partialRemainder with _ | o
  · simp only [nextAskContainer, hpr] at h
    obtain ⟨f1, f2, f3, f4, f5, f6, f7, f8, f9⟩ := hbook h
    rw [hpr] at f5
    refine ⟨f1, f2, f3, f4, f5, f6, f7, ?_, f9⟩
    intro o2 ho2
    exact absurd ho2 (f8 o2)
  · by_cases hob : o.isBid = false
    · simp only [nextAskContainer, hpr, if_pos hob] at h
      rw [Prod.mk.injEq] at h
      obtain ⟨h1, h2⟩ := h
      subst h1
      subst h2
      refine ⟨rfl, rfl, rfl, rfl, hpr, hamm, ?_, ?_, ?_⟩
      · intro b hb
        injection hb with hb2
        exact OrderContainer.noConfusion hb2
      · intro o2 ho2
        injection ho2 with ho3
        injection ho3 with ho4
        subst ho4
        exact ⟨rfl, hob, rfl⟩
      · intro a ha
        injection ha with ha2
        exact OrderContainer.noConfusion ha2
    · simp only [nextAskContainer, hpr, if_neg hob] at h
      obtain ⟨f1, f2, f3, f4, f5, f6, f7, f8, f9⟩ := hbook h
      rw [hpr] at f5
      refine ⟨f1, f2, f3, f4, f5, f6, f7, ?_, f9⟩
      intro o2 ho2
      exact absurd ho2 (f8 o2)

theorem settleEqual_fields (s : VolumeFillMatcher) (bid ask : OrderContainer)
    (hba : bid.isAmm = false) (haa : ask.isAmm = false) :
    (settleEqual s bid ask).bidOutcomes =
        s.bidOutcomes.set s.bidIdx OrderFillState.CompleteFill
    ∧ (settleEqual s bid ask).askOutcomes =
        s.askOutcomes.set s.askIdx OrderFillState.CompleteFill
    ∧ (settleEqual s bid ask).partialRemainder = none
    ∧ (settleEqual s bid ask).book = s.book
    ∧ (settleEqual s bid ask).ammPrice = s.ammPrice
    ∧ (settleEqual s bid ask).bidIdx = s.bidIdx
    ∧ (settleEqual s bid ask).askIdx = s.askIdx := by
  simp only [settleEqual, haa, hba, Bool.false_eq_true, if_false]
  exact ⟨rfl, rfl, rfl, rfl, rfl, rfl, rfl⟩

theorem settleGreater_fields (s : VolumeFillMatcher) (bid ask : OrderContainer)
    (matched askQ : Nat)
    (hba : bid.isAmm = false) (haa : ask.isAmm = false) :
    (settleGreater s bid ask matched askQ).bidOutcomes =
        s.bidOutcomes.set s.bidIdx
          ((s.bidOutcomes.getD s.bidIdx OrderFillState.Unfilled).partialFill
            matched)
    ∧ (settleGreater s bid ask matched askQ).askOutcomes =
        s.askOutcomes.set s.askIdx OrderFillState.CompleteFill
    ∧ (settleGreater s bid ask matched askQ).partialRemainder =
        bid.fillRemainder askQ
    ∧ (settleGreater s bid ask matched askQ).book = s.book
    ∧ (settleGreater s bid ask matched askQ).ammPrice = s.ammPrice
    ∧ (settleGreater s bid ask matched askQ).bidIdx = s.bidIdx
    ∧ (settleGreater s bid ask matched askQ).askIdx = s.askIdx := by
  simp only [settleGreater, haa, hba, Bool.false_eq_true, if_false]
  refine ⟨?_, ?_, ?_, ?_, ?_, ?_, ?_⟩ <;> trivial

theorem settleLess_fields (s : VolumeFillMatcher) (bid ask : OrderContainer)
    (matched bidQ : Nat)
    (hba : bid.isAmm = false) (haa : ask.isAmm = false) :
    (settleLess s bid ask matched bidQ).bidOutcomes =
        s.bidOutcomes.set s.bidIdx OrderFillState.CompleteFill
    ∧ (settleLess s bid ask matched bidQ).askOutcomes =
        s.askOutcomes.set s.askIdx
          ((s.askOutcomes.getD s.askIdx OrderFillState.Unfilled).partialFill
            matched)
    ∧ (settleLess s bid ask matched bidQ).partialRemainder =
        ask.fillRemainder bidQ
    ∧ (settleLess s bid ask matched bidQ).book = s.book
    ∧ (settleLess s bid ask matched bidQ).ammPrice = s.ammPrice
    ∧ (settleLess s bid ask matched bidQ).bidIdx = s.bidIdx
    ∧ (settleLess s bid ask matched bidQ).askIdx = s.askIdx := by
  simp only [settleLess, haa, hba, Bool.false_eq_true, if_false]
  refine ⟨?_, ?_, ?_, ?_, ?_, ?_, ?_⟩ <;> trivial

theorem goodStateCheckpoint_fields (s : VolumeFillMatcher) :
    (goodStateCheckpoint s).bidOutcomes = s.bidOutcomes
    ∧ (goodStateCheckpoint s).askOutcomes = s.askOutcomes
    ∧ (goodStateCheckpoint s).partialRemainder = s.partialRemainder
    ∧ (goodStateCheckpoint s).book = s.book
    ∧ (goodStateCheckpoint s).ammPrice = s.ammPrice
    ∧ (goodStateCheckpoint s).bidIdx = s.bidIdx
    ∧ (goodStateCheckpoint s).askIdx = s.askIdx := by
  simp only [goodStateCheckpoint]
  split <;> exact ⟨rfl, rfl, rfl, rfl, rfl, rfl, rfl⟩

theorem ammSideUpdate_noAmm (s : VolumeFillMatcher) (bid ask : OrderContainer)
    (m : Nat) (hba : bid.isAmm = false) (haa : ask.isAmm = false) :
    ammSideUpdate s bid ask m = s := by
  cases bid <;> cases ask <;> simp_all [OrderContainer.isAmm, ammSideUpdate]

theorem fillRemainder_isBid (c : OrderContainer) (amount : Nat)
    (o : BookOrder) (h : c.fillRemainder amount = some o)
    (b : BookOrder) (hb : c.bookData = some b) : o.isBid = b.isBid := by
  simp only [OrderContainer.fillRemainder, hb, Option.map_some'] at h
  injection h with h2
  rw [← h2]

theorem countNC_set_complete (l : List OrderFillState) (i : Nat)
    (h : i < l.length)
    (hnc : notComplete (l.getD i OrderFillState.CompleteFill) = true) :
    countNotComplete (l.set i OrderFillState.CompleteFill) + 1 =
      countNotComplete l := by
  have hb := countP_set_balance notComplete l i OrderFillState.CompleteFill h
  rw [hnc] at hb
  simp [notComplete] at hb
  unfold countNotComplete
  omega

theorem countNC_set_keep (l : List OrderFillState) (i : Nat)
    (v : OrderFillState) (h : i < l.length)
    (hnc : notComplete (l.getD i OrderFillState.CompleteFill) = true)
    (hv : notComplete v = true) :
    countNotComplete (l.set i v) = countNotComplete l := by
  have hb := countP_set_balance notComplete l i v h
  rw [hnc, hv] at hb
  simp at hb
  unfold countNotComplete
  omega

theorem bookData_of_not_amm (c : OrderContainer) (h : c.isAmm = false) :
    ∃ b, c.bookData = some b := by
  cases c <;> simp_all [OrderContainer.isAmm, OrderContainer.bookData]

theorem executeMatch_noAmm_step (s : VolumeFillMatcher)
    (bid ask : OrderContainer) (bidQ askQ : Nat)
    (hba : bid.isAmm = false) (haa : ask.isAmm = false)
    (hbi : s.bidIdx < s.bidOutcomes.length)
    (hbnc : notComplete
      (s.bidOutcomes.getD s.bidIdx OrderFillState.CompleteFill) = true)
    (hai : s.askIdx < s.askOutcomes.length)
    (hanc : notComplete
      (s.askOutcomes.getD s.askIdx OrderFillState.CompleteFill) = true)
    (hbdir : ∀ b, bid.bookData = some b → b.isBid = true)
    (hadir : ∀ b, ask.bookData = some b → b.isBid = false) :
    matcherMeasure (executeMatch s bid ask bidQ askQ) < matcherMeasure s
    ∧ (executeMatch s bid ask bidQ askQ).book = s.book
    ∧ (executeMatch s bid ask bidQ askQ).ammPrice = s.ammPrice
    ∧ (executeMatch s bid ask bidQ askQ).bidOutcomes.length =
        s.bidOutcomes.length
    ∧ (executeMatch s bid ask bidQ askQ).askOutcomes.length =
        s.askOutcomes.length
    ∧ (∀ o, (executeMatch s bid ask bidQ askQ).partialRemainder = some o →
        o.isBid = true →
        (executeMatch s bid ask bidQ askQ).bidIdx <
            (executeMatch s bid ask bidQ askQ).bidOutcomes.length
        ∧ notComplete ((executeMatch s bid ask bidQ askQ).bidOutcomes.getD
            (executeMatch s bid ask bidQ askQ).bidIdx
            OrderFillState.CompleteFill) = true)
    ∧ (∀ o, (executeMatch s bid ask bidQ askQ).partialRemainder = some o →
        o.isBid = false →
        (executeMatch s bid ask bidQ askQ).askIdx <
            (executeMatch s bid ask bidQ askQ).askOutcomes.length
        ∧ notComplete ((executeMatch s bid ask bidQ askQ).askOutcomes.getD
            (executeMatch s bid ask bidQ askQ).askIdx
            OrderFillState.CompleteFill) = true) := by
  have hside := ammSideUpdate_noAmm
    (recordVolumes s bid ask (min askQ bidQ)) bid ask (min askQ bidQ) hba haa
  have hx : executeMatch s bid ask bidQ askQ =
      goodStateCheckpoint
        (if bidQ = askQ then
          settleEqual (recordVolumes s bid ask (min askQ bidQ)) bid ask
         else if askQ < bidQ then
          settleGreater (recordVolumes s bid ask (min askQ bidQ)) bid ask
            (min askQ bidQ) askQ
         else
          settleLess (recordVolumes s bid ask (min askQ bidQ)) bid ask
            (min askQ bidQ) bidQ) := by
    simp only [executeMatch, hside]
  rw [hx]
  have e1 : (recordVolumes s bid ask (min askQ bidQ)).bidOutcomes =
      s.bidOutcomes := rfl
  have e2 : (recordVolumes s bid ask (min askQ bidQ)).askOutcomes =
      s.askOutcomes := rfl
  have e3 : (recordVolumes s bid ask (min askQ bidQ)).bidIdx = s.bidIdx := rfl
  have e4 : (recordVolumes s bid ask (min askQ bidQ)).askIdx = s.askIdx := rfl
  have e5 : (recordVolumes s bid ask (min askQ bidQ)).book = s.book := rfl
  have e6 : (recordVolumes s bid ask (min askQ bidQ)).ammPrice =
      s.ammPrice := rfl
  by_cases h1 : bidQ = askQ
  · rw [if_pos h1]
    obtain ⟨g1, g2, g3, g4, g5, g6, g7⟩ := goodStateCheckpoint_fields
      (settleEqual (recordVolumes s bid ask (min askQ bidQ)) bid ask)
    obtain ⟨q1, q2, q3, q4, q5, q6, q7⟩ := settleEqual_fields
      (recordVolumes s bid ask (min askQ bidQ)) bid ask hba haa
    refine ⟨?_, ?_, ?_, ?_, ?_, ?_, ?_⟩
    · unfold matcherMeasure
      rw [g1, g2, q1, q2, e1, e2, e3, e4]
      have d1 := countNC_set_complete s.bidOutcomes s.bidIdx hbi hbnc
      have d2 := countNC_set_complete s.askOutcomes s.askIdx hai hanc
      omega
    · rw [g4, q4, e5]
    · rw [g5, q5, e6]
    · rw [g1, q1, e1, e3, List.length_set]
    · rw [g2, q2, e2, e4, List.length_set]
    · intro o ho
      rw [g3, q3] at ho
      exact Option.noConfusion ho
    · intro o ho
      rw [g3, q3] at ho
      exact Option.noConfusion ho
  · rw [if_neg h1]
    by_cases h2 : askQ < bidQ
    · rw [if_pos h2]
      obtain ⟨g1, g2, g3, g4, g5, g6, g7⟩ := goodStateCheckpoint_fields
        (settleGreater (recordVolumes s bid ask (min askQ bidQ)) bid ask
          (min askQ bidQ) askQ)
      obtain ⟨q1, q2, q3, q4, q5, q6, q7⟩ := settleGreater_fields
        (recordVolumes s bid ask (min askQ bidQ)) bid ask
        (min askQ bidQ) askQ hba haa
      have hvnc : notComplete
          ((s.bidOutcomes.getD s.bidIdx OrderFillState.Unfilled).partialFill
            (min askQ bidQ)) = true := by
        refine notComplete_partialFill _ _ ?_
        rw [getD_irrel_of_lt _ _ _ OrderFillState.CompleteFill hbi]
        exact hbnc
      refine ⟨?_, ?_, ?_, ?_, ?_, ?_, ?_⟩
      · unfold matcherMeasure
        rw [g1, g2, q1, q2, e1, e2, e3, e4]
        have d1 := countNC_set_keep s.bidOutcomes s.bidIdx _ hbi hbnc hvnc
        have d2 := countNC_set_complete s.askOutcomes s.askIdx hai hanc
        omega
      · rw [g4, q4, e5]
      · rw [g5, q5, e6]
      · rw [g1, q1, e1, e3, List.length_set]
      · rw [g2, q2, e2, e4, List.length_set]
      · intro o ho _
        rw [g6, q6, e3, g1, q1, e1, e3]
        constructor
        · simpa [List.length_set] using hbi
        · rw [getD_set_self _ _ _ _ (by simpa [List.length_set] using hbi)]
          exact hvnc
      · intro o ho hcond
        rw [g3, q3] at ho
        obtain ⟨b, hbD⟩ := bookData_of_not_amm bid hba
        have hob := fillRemainder_isBid bid askQ o ho b hbD
        have hbT := hbdir b hbD
        rw [hob, hbT] at hcond
        exact Bool.noConfusion hcond
    · rw [if_neg h2]
      obtain ⟨g1, g2, g3, g4, g5, g6, g7⟩ := goodStateCheckpoint_fields
        (settleLess (recordVolumes s bid ask (min askQ bidQ)) bid ask
          (min askQ bidQ) bidQ)
      obtain ⟨q1, q2, q3, q4, q5, q6, q7⟩ := settleLess_fields
        (recordVolumes s bid ask (min askQ bidQ)) bid ask
        (min askQ bidQ) bidQ hba haa
      have hvnc : notComplete
          ((s.askOutcomes.getD s.askIdx OrderFillState.Unfilled).partialFill
            (min askQ bidQ)) = true := by
        refine notComplete_partialFill _ _ ?_
        rw [getD_irrel_of_lt _ _ _ OrderFillState.CompleteFill hai]
        exact hanc
      refine ⟨?_, ?_, ?_, ?_, ?_, ?_, ?_⟩
      · unfold matcherMeasure
        rw [g1, g2, q1, q2, e1, e2, e3, e4]
        have d1 := countNC_set_complete s.bidOutcomes s.bidIdx hbi hbnc
        have d2 := countNC_set_keep s.askOutcomes s.askIdx _ hai hanc hvnc
        omega
      · rw [g4, q4, e5]
      · rw [g5, q5, e6]
      · rw [g1, q1, e1, e3, List.length_set]
      · rw [g2, q2, e2, e4, List.length_set]
      · intro o ho hcond
        rw [g3, q3] at ho
        obtain ⟨b, hbD⟩ := bookData_of_not_amm ask haa
        have hob := fillRemainder_isBid ask bidQ o ho b hbD
        have hbT := hadir b hbD
        rw [hob, hbT] at hcond
        exact Bool.noConfusion hcond
      · intro o ho _
        rw [g7, q7, e4, g2, q2, e2, e4]
        constructor
        · simpa [List.length_set] using hai
        · rw [getD_set_self _ _ _ _ (by simpa [List.length_set] using hai)]
          exact hvnc

theorem fillStep_inr_step (s sNext : VolumeFillMatcher) (hinv : MatcherInv s)
    (h : fillStep s = Sum.inr sNext) :
    MatcherInv sNext ∧ matcherMeasure sNext < matcherMeasure s := by
  rcases hb : nextBidContainer s with ⟨sb, _ | bid⟩
  · simp only [fillStep, hb] at h
    exact Sum.noConfusion h
  · rcases ha : nextAskContainer sb with ⟨sa, _ | ask⟩
    · simp only [fillStep, hb, ha] at h
      exact Sum.noConfusion h
    · obtain ⟨cb1, cb2, cb3, cb4, cb5, cb6, cb7, cb8, cb9⟩ :=
        nextBidContainer_char s sb _ hinv.ammNone hinv.bidLen hb
      have haLen : sb.askOutcomes.length = sb.book.asks.length := by
        rw [cb3, cb1]
        exact hinv.askLen
      obtain ⟨ca1, ca2, ca3, ca4, ca5, ca6, ca7, ca8, ca9⟩ :=
        nextAskContainer_char sb sa _ cb6 haLen ha
      have hbamm : bid.isAmm = false := by
        cases bid with
        | amm a => exact absurd rfl (cb9 a)
        | bookOrder o => rfl
        | bookOrderFragment o => rfl
      have haamm : ask.isAmm = false := by
        cases ask with
        | amm a => exact absurd rfl (ca9 a)
        | bookOrder o => rfl
        | bookOrderFragment o => rfl
      simp only [fillStep, hb, ha, hbamm, haamm, Bool.false_and,
        Bool.false_eq_true, if_false] at h
      by_cases hcross : bid.price < ask.price
      · rw [if_pos hcross] at h
        exact Sum.noConfusion h
      · rw [if_neg hcross] at h
        by_cases hzero : ask.quantity bid.price = 0 ∨
            bid.quantity ask.price = 0
        · rw [if_pos hzero] at h
          exact Sum.noConfusion h
        · rw [if_neg hzero] at h
          injection h with h2
          subst h2
          have hsaBidOut : sa.bidOutcomes = s.bidOutcomes := by
            rw [ca2, cb2]
          have hsaAskOut : sa.askOutcomes = s.askOutcomes := by
            rw [ca3, cb3]
          have hsaBook : sa.book = s.book := by
            rw [ca1, cb1]
          have hbfacts : sa.bidIdx < sa.bidOutcomes.length
              ∧ notComplete (sa.bidOutcomes.getD sa.bidIdx
                  OrderFillState.CompleteFill) = true
              ∧ (∀ b, bid.bookData = some b → b.isBid = true) := by
            cases bid with
            | amm a => exact absurd rfl (cb9 a)
            | bookOrder b =>
                obtain ⟨k1, k2, k3⟩ := cb7 b rfl
                refine ⟨?_, ?_, ?_⟩
                · rw [ca4, hsaBidOut, hinv.bidLen]
                  exact k1
                · rw [ca4, hsaBidOut, ← cb2, k3]
                  rfl
                · intro bb hb2
                  injection hb2 with hb3
                  subst hb3
                  exact hinv.bidsDir _ (List.get?_mem k2)
            | bookOrderFragment o =>
                obtain ⟨k1, k2, k3⟩ := cb8 o rfl
                subst k3
                obtain ⟨m1, m2⟩ := hinv.fragBid o k1 k2
                refine ⟨?_, ?_, ?_⟩
                · rw [ca4, hsaBidOut]
                  exact m1
                · rw [ca4, hsaBidOut]
                  exact m2
                · intro bb hb2
                  injection hb2 with hb3
                  subst hb3
                  exact k2
          have hafacts : sa.askIdx < sa.askOutcomes.length
              ∧ notComplete (sa.askOutcomes.getD sa.askIdx
                  OrderFillState.CompleteFill) = true
              ∧ (∀ b, ask.bookData = some b → b.isBid = false) := by
            cases ask with
            | amm a => exact absurd rfl (ca9 a)
            | bookOrder b =>
                obtain ⟨k1, k2, k3⟩ := ca7 b rfl
                refine ⟨?_, ?_, ?_⟩
                · rw [hsaAskOut, hinv.askLen]
                  rw [cb1] at k1
                  exact k1
                · rw [k3]
                  rfl
                · intro bb hb2
                  injection hb2 with hb3
                  subst hb3
                  have hmem := List.get?_mem k2
                  rw [cb1] at hmem
                  exact hinv.asksDir _ hmem
            | bookOrderFragment o =>
                obtain ⟨k1, k2, k3⟩ := ca8 o rfl
                subst k3
                rw [cb5] at k1
                obtain ⟨m1, m2⟩ := hinv.fragAsk o k1 k2
                refine ⟨?_, ?_, ?_⟩
                · rw [cb4, cb3]
                  exact m1
                · rw [cb4, cb3]
                  exact m2
                · intro bb hb2
                  injection hb2 with hb3
                  subst hb3
                  exact k2
          obtain ⟨hbi, hbnc, hbdir⟩ := hbfacts
          obtain ⟨hai, hanc, hadir⟩ := hafacts
          obtain ⟨w1, w2, w3, w4, w5, w6, w7⟩ :=
            executeMatch_noAmm_step sa bid ask (bid.quantity ask.price)
              (ask.quantity bid.price) hbamm haamm hbi hbnc hai hanc
              hbdir hadir
          refine ⟨⟨?_, ?_, ?_, ?_, ?_, w6, w7⟩, ?_⟩
          · rw [w3, ca6]
          · rw [w4, hsaBidOut, w2, hsaBook]
            exact hinv.bidLen
          · rw [w5, hsaAskOut, w2, hsaBook]
            exact hinv.askLen
          · rw [w2, hsaBook]
            exact hinv.bidsDir
          · rw [w2, hsaBook]
            exact hinv.asksDir
          · have hms : matcherMeasure sa = matcherMeasure s := by
              unfold matcherMeasure
              rw [hsaBidOut, hsaAskOut]
            rw [← hms]
            exact w1

theorem fillFuel_isSome_of_inv :
    ∀ (fuel : Nat) (s : VolumeFillMatcher), MatcherInv s →
      matcherMeasure s < fuel → (fillFuel fuel s).isSome = true := by
  intro fuel
  induction fuel with
  | zero =>
      intro s _ h
      omega
  | succ n ih =>
      intro s hinv hm
      simp only [fillFuel]
      cases hstep : fillStep s with
      | inl r => rfl
      | inr s2 =>
          obtain ⟨hinv2, hdec⟩ := fillStep_inr_step s s2 hinv hstep
          exact ih s2 hinv2 (by omega)

theorem matcherInv_start (book : OrderBook) (hamm : book.amm = none)
    (hb : ∀ o ∈ book.bids, o.isBid = true)
    (ha : ∀ o ∈ book.asks, o.isBid = false) :
    MatcherInv (VolumeFillMatcher.start book) := by
  refine ⟨hamm, ?_, ?_, hb, ha, ?_, ?_⟩
  · simp [VolumeFillMatcher.start, VolumeFillMatcher.withRelated,
      saveCheckpoint]
  · simp [VolumeFillMatcher.start, VolumeFillMatcher.withRelated,
      saveCheckpoint]
  · intro o ho
    exact Option.noConfusion ho
  · intro o ho
    exact Option.noConfusion ho

theorem matcherMeasure_start (book : OrderBook) :
    matcherMeasure (VolumeFillMatcher.start book) =
      book.bids.length + book.asks.length := by
  show countNotComplete (List.replicate book.bids.length
      OrderFillState.Unfilled) +
    countNotComplete (List.replicate book.asks.length
      OrderFillState.Unfilled) = _
  unfold countNotComplete
  rw [countP_replicate_of, countP_replicate_of]
  simp [notComplete]

/-- On a book without an AMM snapshot whose sides are direction-consistent,
the volume-fill loop halts within `len(bids) + len(asks) + 1` iterations and
reports exactly one of the five termination reasons. -/
theorem volume_fill_halts_no_amm :
    ∀ (book : OrderBook), book.amm = none →
      (∀ o ∈ book.bids, o.isBid = true) →
      (∀ o ∈ book.asks, o.isBid = false) →
      ∃ reason sFinal,
        fillFuel (book.bids.length + book.asks.length + 1)
          (VolumeFillMatcher.start book) = some (reason, sFinal)
        ∧ (reason = VolumeFillMatchEndReason.NoMoreBids
           ∨ reason = VolumeFillMatchEndReason.NoMoreAsks
           ∨ reason = VolumeFillMatchEndReason.BothSidesAMM
           ∨ reason = VolumeFillMatchEndReason.NoLongerCross
           ∨ reason = VolumeFillMatchEndReason.ZeroQuantity) := by
  intro book hamm hb ha
  have hinv := matcherInv_start book hamm hb ha
  have hm : matcherMeasure (VolumeFillMatcher.start book) <
      book.bids.length + book.asks.length + 1 := by
    rw [matcherMeasure_start]
    omega
  have hsome := fillFuel_isSome_of_inv
    (book.bids.length + book.asks.length + 1)
    (VolumeFillMatcher.start book) hinv hm
  rcases hres : fillFuel (book.bids.length + book.asks.length + 1)
      (VolumeFillMatcher.start book) with _ | ⟨reason, sFinal⟩
  · rw [hres] at hsome
    exact Bool.noConfusion hsome
  · refine ⟨reason, sFinal, rfl, ?_⟩
    cases reason
    · exact Or.inl rfl
    · exact Or.inr (Or.inl rfl)
    · exact Or.inr (Or.inr (Or.inl rfl))
    · exact Or.inr (Or.inr (Or.inr (Or.inl rfl)))
    · exact Or.inr (Or.inr (Or.inr (Or.inr rfl)))

/-- C7 counterexample: on a book with one bid, two asks and an AMM snapshot
priced below both asks, the claimed bound of `len(bids) + len(asks) + 1 = 4`
iterations is exceeded: after 4 iterations the loop has not yet returned,
and it halts only on the 5th. -/
theorem volume_fill_amm_bound_cex :
    ceBookAmm.bids.length + ceBookAmm.asks.length + 1 = 4
    ∧ fillFuel 4 (VolumeFillMatcher.start ceBookAmm) = none
    ∧ (fillFuel 5 (VolumeFillMatcher.start ceBookAmm)).isSome = true := by
  refine ⟨rfl, by decide, by decide⟩

theorem bookData_price (c : OrderContainer) (b : BookOrder)
    (h : c.bookData = some b) : c.price = b.price := by
  cases c <;> simp_all [OrderContainer.bookData, OrderContainer.price]

theorem fillRemainder_price (c : OrderContainer) (amount : Nat)
    (o : BookOrder) (h : c.fillRemainder amount = some o) :
    ∃ b, c.bookData = some b ∧ o.price = b.price ∧ o.isBid = b.isBid := by
  cases c with
  | bookOrder b =>
      simp only [OrderContainer.fillRemainder, OrderContainer.bookData,
        Option.map_some', Option.some.injEq] at h
      exact ⟨b, rfl, by rw [← h], by rw [← h]⟩
  | bookOrderFragment b =>
      simp only [OrderContainer.fillRemainder, OrderContainer.bookData,
        Option.map_some', Option.some.injEq] at h
      exact ⟨b, rfl, by rw [← h], by rw [← h]⟩
  | amm a =>
      simp only [OrderContainer.fillRemainder, OrderContainer.bookData,
        Option.map_none'] at h
      exact Option.noConfusion h

theorem applyAmmFill_fields (s : VolumeFillMatcher) (o : AmmOrder)
    (m : Nat) (b : Bool) :
    (applyAmmFill s o m b).bidOutcomes = s.bidOutcomes
    ∧ (applyAmmFill s o m b).askOutcomes = s.askOutcomes
    ∧ (applyAmmFill s o m b).bidIdx = s.bidIdx
    ∧ (applyAmmFill s o m b).askIdx = s.askIdx
    ∧ (applyAmmFill s o m b).partialRemainder = s.partialRemainder
    ∧ (applyAmmFill s o m b).book = s.book
    ∧ (applyAmmFill s o m b).bidXpool = s.bidXpool
    ∧ (applyAmmFill s o m b).askXpool = s.askXpool
    ∧ (applyAmmFill s o m b).ammPrice = some ((o.fill m).endBound) :=
  ⟨rfl, rfl, rfl, rfl, rfl, rfl, rfl, rfl, rfl⟩

theorem ammSideUpdate_ammAsk (s : VolumeFillMatcher) (bid : OrderContainer)
    (a : AmmOrder) (m : Nat) (hba : bid.isAmm = false) :
    ammSideUpdate s bid (OrderContainer.amm a) m = applyAmmFill s a m false := by
  cases bid <;> simp_all [OrderContainer.isAmm, ammSideUpdate]

theorem ammSideUpdate_ammBid (s : VolumeFillMatcher) (a : AmmOrder)
    (ask : OrderContainer) (m : Nat) :
    ammSideUpdate s (OrderContainer.amm a) ask m = applyAmmFill s a m true := by
  cases ask <;> rfl

theorem goodStateCheckpoint_xpool (s : VolumeFillMatcher) :
    (goodStateCheckpoint s).bidXpool = s.bidXpool
    ∧ (goodStateCheckpoint s).askXpool = s.askXpool := by
  simp only [goodStateCheckpoint]
  split <;> exact ⟨rfl, rfl⟩

theorem settleEqual_fields_ammAsk (s : VolumeFillMatcher)
    (bid : OrderContainer) (a : AmmOrder) (hba : bid.isAmm = false) :
    (settleEqual s bid (OrderContainer.amm a)).bidOutcomes =
        s.bidOutcomes.set s.bidIdx OrderFillState.CompleteFill
    ∧ (settleEqual s bid (OrderContainer.amm a)).askOutcomes = s.askOutcomes
    ∧ (settleEqual s bid (OrderContainer.amm a)).partialRemainder = none
    ∧ (settleEqual s bid (OrderContainer.amm a)).book = s.book
    ∧ (settleEqual s bid (OrderContainer.amm a)).ammPrice = s.ammPrice
    ∧ (settleEqual s bid (OrderContainer.amm a)).bidIdx = s.bidIdx
    ∧ (settleEqual s bid (OrderContainer.amm a)).askIdx = s.askIdx
    ∧ (settleEqual s bid (OrderContainer.amm a)).bidXpool = s.bidXpool
    ∧ (settleEqual s bid (OrderContainer.amm a)).askXpool = s.askXpool := by
  have haa : (OrderContainer.amm a).isAmm = true := rfl
  simp only [settleEqual, hba, haa, Bool.false_eq_true,
    if_false, eq_self_iff_true, if_true]
  refine ⟨?_, ?_, ?_, ?_, ?_, ?_, ?_, ?_, ?_⟩ <;> trivial

theorem settleGreater_fields_ammAsk (s : VolumeFillMatcher)
    (bid : OrderContainer) (a : AmmOrder) (matched askQ : Nat)
    (hba : bid.isAmm = false) :
    (settleGreater s bid (OrderContainer.amm a) matched askQ).bidOutcomes =
        s.bidOutcomes.set s.bidIdx
          ((s.bidOutcomes.getD s.bidIdx OrderFillState.Unfilled).partialFill
            matched)
    ∧ (settleGreater s bid (OrderContainer.amm a) matched askQ).askOutcomes =
        s.askOutcomes
    ∧ (settleGreater s bid (OrderContainer.amm a) matched askQ).partialRemainder
        = bid.fillRemainder askQ
    ∧ (settleGreater s bid (OrderContainer.amm a) matched askQ).book = s.book
    ∧ (settleGreater s bid (OrderContainer.amm a) matched askQ).ammPrice =
        s.ammPrice
    ∧ (settleGreater s bid (OrderContainer.amm a) matched askQ).bidIdx = s.bidIdx
    ∧ (settleGreater s bid (OrderContainer.amm a) matched askQ).askIdx = s.askIdx
    ∧ (settleGreater s bid (OrderContainer.amm a) matched askQ).bidXpool =
        s.bidXpool
    ∧ (settleGreater s bid (OrderContainer.amm a) matched askQ).askXpool =
        s.askXpool := by
  have haa : (OrderContainer.amm a).isAmm = true := rfl
  simp only [settleGreater, hba, haa, Bool.false_eq_true,
    if_false, eq_self_iff_true, if_true]
  refine ⟨?_, ?_, ?_, ?_, ?_, ?_, ?_, ?_, ?_⟩ <;> trivial

theorem settleLess_fields_ammAsk (s : VolumeFillMatcher)
    (bid : OrderContainer) (a : AmmOrder) (matched bidQ : Nat)
    (hba : bid.isAmm = false) :
    (settleLess s bid (OrderContainer.amm a) matched bidQ).bidOutcomes =
        s.bidOutcomes.set s.bidIdx OrderFillState.CompleteFill
    ∧ (settleLess s bid (OrderContainer.amm a) matched bidQ).askOutcomes =
        s.askOutcomes
    ∧ (settleLess s bid (OrderContainer.amm a) matched bidQ).partialRemainder
        = none
    ∧ (settleLess s bid (OrderContainer.amm a) matched bidQ).book = s.book
    ∧ (settleLess s bid (OrderContainer.amm a) matched bidQ).ammPrice =
        s.ammPrice
    ∧ (settleLess s bid (OrderContainer.amm a) matched bidQ).bidIdx = s.bidIdx
    ∧ (settleLess s bid (OrderContainer.amm a) matched bidQ).askIdx = s.askIdx
    ∧ (settleLess s bid (OrderContainer.amm a) matched bidQ).bidXpool =
        s.bidXpool
    ∧ (settleLess s bid (OrderContainer.amm a) matched bidQ).askXpool =
        s.askXpool := by
  have haa : (OrderContainer.amm a).isAmm = true := rfl
  simp only [settleLess, hba, haa, Bool.false_eq_true,
    if_false, eq_self_iff_true, if_true]
  refine ⟨?_, ?_, ?_, ?_, ?_, ?_, ?_, ?_, ?_⟩ <;> trivial

theorem settleEqual_fields_ammBid (s : VolumeFillMatcher)
    (a : AmmOrder) (ask : OrderContainer) (haa : ask.isAmm = false) :
    (settleEqual s (OrderContainer.amm a) ask).askOutcomes =
        s.askOutcomes.set s.askIdx OrderFillState.CompleteFill
    ∧ (settleEqual s (OrderContainer.amm a) ask).bidOutcomes = s.bidOutcomes
    ∧ (settleEqual s (OrderContainer.amm a) ask).partialRemainder = none
    ∧ (settleEqual s (OrderContainer.amm a) ask).book = s.book
    ∧ (settleEqual s (OrderContainer.amm a) ask).ammPrice = s.ammPrice
    ∧ (settleEqual s (OrderContainer.amm a) ask).bidIdx = s.bidIdx
    ∧ (settleEqual s (OrderContainer.amm a) ask).askIdx = s.askIdx
    ∧ (settleEqual s (OrderContainer.amm a) ask).bidXpool = s.bidXpool
    ∧ (settleEqual s (OrderContainer.amm a) ask).askXpool = s.askXpool := by
  have hba : (OrderContainer.amm a).isAmm = true := rfl
  simp only [settleEqual, haa, hba, Bool.false_eq_true,
    if_false, eq_self_iff_true, if_true]
  refine ⟨?_, ?_, ?_, ?_, ?_, ?_, ?_, ?_, ?_⟩ <;> trivial

theorem settleGreater_fields_ammBid (s : VolumeFillMatcher)
    (a : AmmOrder) (ask : OrderContainer) (matched askQ : Nat)
    (haa : ask.isAmm = false) :
    (settleGreater s (OrderContainer.amm a) ask matched askQ).askOutcomes =
        s.askOutcomes.set s.askIdx OrderFillState.CompleteFill
    ∧ (settleGreater s (OrderContainer.amm a) ask matched askQ).bidOutcomes =
        s.bidOutcomes
    ∧ (settleGreater s (OrderContainer.amm a) ask matched askQ).partialRemainder
        = none
    ∧ (settleGreater s (OrderContainer.amm a) ask matched askQ).book = s.book
    ∧ (settleGreater s (OrderContainer.amm a) ask matched askQ).ammPrice =
        s.ammPrice
    ∧ (settleGreater s (OrderContainer.amm a) ask matched askQ).bidIdx =
        s.bidIdx
    ∧ (settleGreater s (OrderContainer.amm a) ask matched askQ).askIdx =
        s.askIdx
    ∧ (settleGreater s (OrderContainer.amm a) ask matched askQ).bidXpool =
        s.bidXpool
    ∧ (settleGreater s (OrderContainer.amm a) ask matched askQ).askXpool =
        s.askXpool := by
  have hba : (OrderContainer.amm a).isAmm = true := rfl
  simp only [settleGreater, haa, hba, Bool.false_eq_true,
    if_false, eq_self_iff_true, if_true]
  refine ⟨?_, ?_, ?_, ?_, ?_, ?_, ?_, ?_, ?_⟩ <;> trivial

theorem settleLess_fields_ammBid (s : VolumeFillMatcher)
    (a : AmmOrder) (ask : OrderContainer) (matched bidQ : Nat)
    (haa : ask.isAmm = false) :
    (settleLess s (OrderContainer.amm a) ask matched bidQ).askOutcomes =
        s.askOutcomes.set s.askIdx
          ((s.askOutcomes.getD s.askIdx OrderFillState.Unfilled).partialFill
            matched)
    ∧ (settleLess s (OrderContainer.amm a) ask matched bidQ).bidOutcomes =
        s.bidOutcomes
    ∧ (settleLess s (OrderContainer.amm a) ask matched bidQ).partialRemainder
        = ask.fillRemainder bidQ
    ∧ (settleLess s (OrderContainer.amm a) ask matched bidQ).book = s.book
    ∧ (settleLess s (OrderContainer.amm a) ask matched bidQ).ammPrice =
        s.ammPrice
    ∧ (settleLess s (OrderContainer.amm a) ask matched bidQ).bidIdx = s.bidIdx
    ∧ (settleLess s (OrderContainer.amm a) ask matched bidQ).askIdx = s.askIdx
    ∧ (settleLess s (OrderContainer.amm a) ask matched bidQ).bidXpool =
        s.bidXpool
    ∧ (settleLess s (OrderContainer.amm a) ask matched bidQ).askXpool =
        s.askXpool := by
  have hba : (OrderContainer.amm a).isAmm = true := rfl
  simp only [settleLess, haa, hba, Bool.false_eq_true,
    if_false, eq_self_iff_true, if_true]
  refine ⟨?_, ?_, ?_, ?_, ?_, ?_, ?_, ?_, ?_⟩ <;> trivial

theorem tryNextOrder_ask_cases (s : VolumeFillMatcher) :
    tryNextOrder s OrderDirection.ask =
      ({ s with askIdx :=
          findNextIdx s.askOutcomes s.askXpool (s.askOutcomes.length + 1) s.askIdx },
       none)
    ∨ ∃ p bk, s.ammPrice = some p
        ∧ s.book.asks.get? (findNextIdx s.askOutcomes s.askXpool
            (s.askOutcomes.length + 1) s.askIdx) = some bk
        ∧ p < bk.price
        ∧ tryNextOrder s OrderDirection.ask = (s, some ⟨p, bk.price, true⟩) := by
  rcases hp : s.ammPrice with _ | p
  · have hr := tryNextOrder_ask_of_ammNone s hp
    rw [hp] at hr
    exact Or.inl hr
  · rcases hbk : s.book.asks.get? (findNextIdx s.askOutcomes s.askXpool
        (s.askOutcomes.length + 1) s.askIdx) with _ | bk
    · left
      simp only [tryNextOrder, hp, hbk, Option.map_none', Option.some_bind,
        orderToTarget, Option.isNone_none, eq_self_iff_true, if_true]
    · by_cases hpt : p < bk.price
      · right
        refine ⟨p, bk, rfl, rfl, hpt, ?_⟩
        simp only [tryNextOrder, hp, hbk, Option.map_some', Option.some_bind,
          orderToTarget, eq_self_iff_true, if_true, if_pos hpt,
          Option.isNone_some, Bool.false_eq_true, if_false]
      · left
        simp only [tryNextOrder, hp, hbk, Option.map_some', Option.some_bind,
          orderToTarget, eq_self_iff_true, if_true, if_neg hpt,
          Option.isNone_none]

theorem tryNextOrder_bid_cases (s : VolumeFillMatcher) :
    tryNextOrder s OrderDirection.bid =
      ({ s with bidIdx :=
          findNextIdx s.bidOutcomes s.bidXpool (s.bidOutcomes.length + 1) s.bidIdx },
       none)
    ∨ ∃ p bk, s.ammPrice = some p
        ∧ s.book.bids.get? (findNextIdx s.bidOutcomes s.bidXpool
            (s.bidOutcomes.length + 1) s.bidIdx) = some bk
        ∧ bk.price < p
        ∧ tryNextOrder s OrderDirection.bid = (s, some ⟨p, bk.price, false⟩) := by
  rcases hp : s.ammPrice with _ | p
  · have hr := tryNextOrder_bid_of_ammNone s hp
    rw [hp] at hr
    exact Or.inl hr
  · rcases hbk : s.book.bids.get? (findNextIdx s.bidOutcomes s.bidXpool
        (s.bidOutcomes.length + 1) s.bidIdx) with _ | bk
    · left
      simp only [tryNextOrder, hp, hbk, Option.map_none', Option.some_bind,
        orderToTarget, Option.isNone_none, eq_self_iff_true, if_true]
    · by_cases hpt : bk.price < p
      · right
        refine ⟨p, bk, rfl, rfl, hpt, ?_⟩
        simp only [tryNextOrder, hp, hbk, Option.map_some', Option.some_bind,
          orderToTarget, Bool.false_eq_true, if_false, if_pos hpt,
          Option.isNone_some]
      · left
        simp only [tryNextOrder, hp, hbk, Option.map_some', Option.some_bind,
          orderToTarget, Bool.false_eq_true, if_false, if_neg hpt,
          Option.isNone_none, eq_self_iff_true, if_true]

theorem nextAskFromBook_charG (s sb : VolumeFillMatcher)
    (bopt : Option OrderContainer) (h : nextAskFromBook s = (sb, bopt)) :
    (sb = { s with askIdx :=
        findNextIdx s.askOutcomes s.askXpool (s.askOutcomes.length + 1) s.askIdx }
      ∧ bopt = (s.book.asks.get? sb.askIdx).map OrderContainer.bookOrder)
    ∨ (sb = s ∧ ∃ p bk, s.ammPrice = some p
        ∧ s.book.asks.get? (findNextIdx s.askOutcomes s.askXpool
            (s.askOutcomes.length + 1) s.askIdx) = some bk
        ∧ p < bk.price
        ∧ bopt = some (OrderContainer.amm ⟨p, bk.price, true⟩)) := by
  rcases tryNextOrder_ask_cases s with hr | ⟨p, bk, hp, hbk, hpt, hr⟩
  · left
    simp only [nextAskFromBook, hr] at h
    rw [Prod.mk.injEq] at h
    refine ⟨h.1.symm, ?_⟩
    rw [← h.2, ← h.1]
  · right
    simp only [nextAskFromBook, hr] at h
    rw [Prod.mk.injEq] at h
    exact ⟨h.1.symm, p, bk, hp, hbk, hpt, h.2.symm⟩

theorem nextBidFromBook_charG (s sb : VolumeFillMatcher)
    (bopt : Option OrderContainer) (h : nextBidFromBook s = (sb, bopt)) :
    (sb = { s with bidIdx :=
        findNextIdx s.bidOutcomes s.bidXpool (s.bidOutcomes.length + 1) s.bidIdx }
      ∧ bopt = (s.book.bids.get? sb.bidIdx).map OrderContainer.bookOrder)
    ∨ (sb = s ∧ ∃ p bk, s.ammPrice = some p
        ∧ s.book.bids.get? (findNextIdx s.bidOutcomes s.bidXpool
            (s.bidOutcomes.length + 1) s.bidIdx) = some bk
        ∧ bk.price < p
        ∧ bopt = some (OrderContainer.amm ⟨p, bk.price, false⟩)) := by
  rcases tryNextOrder_bid_cases s with hr | ⟨p, bk, hp, hbk, hpt, hr⟩
  · left
    simp only [nextBidFromBook, hr] at h
    rw [Prod.mk.injEq] at h
    refine ⟨h.1.symm, ?_⟩
    rw [← h.2, ← h.1]
  · right
    simp only [nextBidFromBook, hr] at h
    rw [Prod.mk.injEq] at h
    exact ⟨h.1.symm, p, bk, hp, hbk, hpt, h.2.symm⟩

theorem nextBidContainer_charG (s sb : VolumeFillMatcher)
    (bopt : Option OrderContainer)
    (hlen : s.bidOutcomes.length = s.book.bids.length)
    (h : nextBidContainer s = (sb, bopt)) :
    sb.book = s.book ∧ sb.bidOutcomes = s.bidOutcomes
    ∧ sb.askOutcomes = s.askOutcomes ∧ sb.askIdx = s.askIdx
    ∧ sb.partialRemainder = s.partialRemainder ∧ sb.ammPrice = s.ammPrice
    ∧ sb.bidXpool = s.bidXpool ∧ sb.askXpool = s.askXpool
    ∧ (∀ b, bopt = some (OrderContainer.bookOrder b) →
        sb.bidIdx < s.book.bids.length
        ∧ s.book.bids.get? sb.bidIdx = some b
        ∧ sb.bidOutcomes.getD sb.bidIdx OrderFillState.CompleteFill =
            OrderFillState.Unfilled)
    ∧ (∀ o, bopt = some (OrderContainer.bookOrderFragment o) →
        s.partialRemainder = some o ∧ o.isBid = true ∧ sb = s)
    ∧ (∀ a, bopt = some (OrderContainer.amm a) → sb = s
        ∧ ∃ bk, s.ammPrice = some a.startPrice
          ∧ s.book.bids.get? (findNextIdx s.bidOutcomes s.bidXpool
              (s.bidOutcomes.length + 1) s.bidIdx) = some bk
          ∧ a.targetPrice = bk.price ∧ a.isAskSide = false
          ∧ bk.price < a.startPrice) := by
  have hbook : nextBidFromBook s = (sb, bopt) →
      sb.book = s.book ∧ sb.bidOutcomes = s.bidOutcomes
      ∧ sb.askOutcomes = s.askOutcomes ∧ sb.askIdx = s.askIdx
      ∧ sb.partialRemainder = s.partialRemainder ∧ sb.ammPrice = s.ammPrice
      ∧ sb.bidXpool = s.bidXpool ∧ sb.askXpool = s.askXpool
      ∧ (∀ b, bopt = some (OrderContainer.bookOrder b) →
          sb.bidIdx < s.book.bids.length
          ∧ s.book.bids.get? sb.bidIdx = some b
          ∧ sb.bidOutcomes.getD sb.bidIdx OrderFillState.CompleteFill =
              OrderFillState.Unfilled)
      ∧ (∀ o, bopt ≠ some (OrderContainer.bookOrderFragment o))
      ∧ (∀ a, bopt = some (OrderContainer.amm a) → sb = s
          ∧ ∃ bk, s.ammPrice = some a.startPrice
            ∧ s.book.bids.get? (findNextIdx s.bidOutcomes s.bidXpool
                (s.bidOutcomes.length + 1) s.bidIdx) = some bk
            ∧ a.targetPrice = bk.price ∧ a.isAskSide = false
            ∧ bk.price < a.startPrice) := by
    intro hfb
    rcases nextBidFromBook_charG s sb bopt hfb with
      ⟨hsb, hbo⟩ | ⟨hsb, p, bk, hp, hbk, hpt, hbo⟩
    · subst hsb
      refine ⟨rfl, rfl, rfl, rfl, rfl, rfl, rfl, rfl, ?_, ?_, ?_⟩
      · intro b hb
        rw [hbo] at hb
        obtain ⟨b0, hget, hinj⟩ := Option.map_eq_some'.mp hb
        injection hinj with hbb
        subst hbb
        obtain ⟨hlt, -⟩ := List.get?_eq_some.mp hget
        refine ⟨hlt, hget, ?_⟩
        have hlt3 : findNextIdx s.bidOutcomes s.bidXpool
            (s.bidOutcomes.length + 1) s.bidIdx < s.book.bids.length := hlt
        have hlt2 : findNextIdx s.bidOutcomes s.bidXpool
            (s.bidOutcomes.length + 1) s.bidIdx < s.bidOutcomes.length := by
          omega
        have hu := findNextIdx_unfilled s.bidOutcomes s.bidXpool
          (s.bidOutcomes.length + 1) s.bidIdx (by omega) hlt2
        rw [getD_irrel_of_lt _ _ _ OrderFillState.Unfilled hlt2]
        exact hu
      · intro o2 ho2
        rw [ho2] at hbo
        obtain ⟨b0, -, hinj⟩ := Option.map_eq_some'.mp hbo.symm
        exact OrderContainer.noConfusion hinj
      · intro a ha
        rw [ha] at hbo
        obtain ⟨b0, -, hinj⟩ := Option.map_eq_some'.mp hbo.symm
        exact OrderContainer.noConfusion hinj
    · subst hsb
      refine ⟨rfl, rfl, rfl, rfl, rfl, rfl, rfl, rfl, ?_, ?_, ?_⟩
      · intro b hb
        rw [hbo] at hb
        injection hb with hb2
        exact OrderContainer.noConfusion hb2
      · intro o2 ho2
        rw [ho2] at hbo
        injection hbo with hb2
        exact OrderContainer.noConfusion hb2
      · intro a ha
        rw [ha] at hbo
        injection hbo with hb2
        injection hb2 with hb3
        subst hb3
        exact ⟨rfl, bk, hp, hbk, rfl, rfl, hpt⟩
  rcases hpr : s.partialRemainder with _ | o
  · simp only [nextBidContainer, hpr] at h
    obtain ⟨f1, f2, f3, f4, f5, f6, f7, f8, f9, f10, f11⟩ := hbook h
    rw [hpr] at f5
    refine ⟨f1, f2, f3, f4, f5, f6, f7, f8, f9, ?_, f11⟩
    intro o2 ho2
    exact absurd ho2 (f10 o2)
  · by_cases hob : o.isBid = true
    · simp only [nextBidContainer, hpr, if_pos hob] at h
      rw [Prod.mk.injEq] at h
      obtain ⟨h1, h2⟩ := h
      subst h1
      subst h2
      refine ⟨rfl, rfl, rfl, rfl, hpr, rfl, rfl, rfl, ?_, ?_, ?_⟩
      · intro b hb
        injection hb with hb2
        exact OrderContainer.noConfusion hb2
      · intro o2 ho2
        injection ho2 with ho3
        injection ho3 with ho4
        subst ho4
        exact ⟨rfl, hob, rfl⟩
      · intro a ha
        injection ha with ha2
        exact OrderContainer.noConfusion ha2
    · simp only [nextBidContainer, hpr, if_neg hob] at h
      obtain ⟨f1, f2, f3, f4, f5, f6, f7, f8, f9, f10, f11⟩ := hbook h
      rw [hpr] at f5
      refine ⟨f1, f2, f3, f4, f5, f6, f7, f8, f9, ?_, f11⟩
      intro o2 ho2
      exact absurd ho2 (f10 o2)

theorem nextAskContainer_charG (s sb : VolumeFillMatcher)
    (bopt : Option OrderContainer)
    (hlen : s.askOutcomes.length = s.book.asks.length)
    (h : nextAskContainer s = (sb, bopt)) :
    sb.book = s.book ∧ sb.bidOutcomes = s.bidOutcomes
    ∧ sb.askOutcomes = s.askOutcomes ∧ sb.bidIdx = s.bidIdx
    ∧ sb.partialRemainder = s.partialRemainder ∧ sb.ammPrice = s.ammPrice
    ∧ sb.bidXpool = s.bidXpool ∧ sb.askXpool = s.askXpool
    ∧ (∀ b, bopt = some (OrderContainer.bookOrder b) →
        sb.askIdx < s.book.asks.length
        ∧ s.book.asks.get? sb.askIdx = some b
        ∧ sb.askOutcomes.getD sb.askIdx OrderFillState.CompleteFill =
            OrderFillState.Unfilled)
    ∧ (∀ o, bopt = some (OrderContainer.bookOrderFragment o) →
        s.partialRemainder = some o ∧ o.isBid = false ∧ sb = s)
    ∧ (∀ a, bopt = some (OrderContainer.amm a) → sb = s
        ∧ ∃ bk, s.ammPrice = some a.startPrice
          ∧ s.book.asks.get? (findNextIdx s.askOutcomes s.askXpool
              (s.askOutcomes.length + 1) s.askIdx) = some bk
          ∧ a.targetPrice = bk.price ∧ a.isAskSide = true
          ∧ a.startPrice < bk.price) := by
  have hbook : nextAskFromBook s = (sb, bopt) →
      sb.book = s.book ∧ sb.bidOutcomes = s.bidOutcomes
      ∧ sb.askOutcomes = s.askOutcomes ∧ sb.bidIdx = s.bidIdx
      ∧ sb.partialRemainder = s.partialRemainder ∧ sb.ammPrice = s.ammPrice
      ∧ sb.bidXpool = s.bidXpool ∧ sb.askXpool = s.askXpool
      ∧ (∀ b, bopt = some (OrderContainer.bookOrder b) →
          sb.askIdx < s.book.asks.length
          ∧ s.book.asks.get? sb.askIdx = some b
          ∧ sb.askOutcomes.getD sb.askIdx OrderFillState.CompleteFill =
              OrderFillState.Unfilled)
      ∧ (∀ o, bopt ≠ some (OrderContainer.bookOrderFragment o))
      ∧ (∀ a, bopt = some (OrderContainer.amm a) → sb = s
          ∧ ∃ bk, s.ammPrice = some a.startPrice
            ∧ s.book.asks.get? (findNextIdx s.askOutcomes s.askXpool
                (s.askOutcomes.length + 1) s.askIdx) = some bk
            ∧ a.targetPrice = bk.price ∧ a.isAskSide = true
            ∧ a.startPrice < bk.price) := by
    intro hfb
    rcases nextAskFromBook_charG s sb bopt hfb with
      ⟨hsb, hbo⟩ | ⟨hsb, p, bk, hp, hbk, hpt, hbo⟩
    · subst hsb
      refine ⟨rfl, rfl, rfl, rfl, rfl, rfl, rfl, rfl, ?_, ?_, ?_⟩
      · intro b hb
        rw [hbo] at hb
        obtain ⟨b0, hget, hinj⟩ := Option.map_eq_some'.mp hb
        injection hinj with hbb
        subst hbb
        obtain ⟨hlt, -⟩ := List.get?_eq_some.mp hget
        refine ⟨hlt, hget, ?_⟩
        have hlt3 : findNextIdx s.askOutcomes s.askXpool
            (s.askOutcomes.length + 1) s.askIdx < s.book.asks.length := hlt
        have hlt2 : findNextIdx s.askOutcomes s.askXpool
            (s.askOutcomes.length + 1) s.askIdx < s.askOutcomes.length := by
          omega
        have hu := findNextIdx_unfilled s.askOutcomes s.askXpool
          (s.askOutcomes.length + 1) s.askIdx (by omega) hlt2
        rw [getD_irrel_of_lt _ _ _ OrderFillState.Unfilled hlt2]
        exact hu
      · intro o2 ho2
        rw [ho2] at hbo
        obtain ⟨b0, -, hinj⟩ := Option.map_eq_some'.mp hbo.symm
        exact OrderContainer.noConfusion hinj
      · intro a ha
        rw [ha] at hbo
        obtain ⟨b0, -, hinj⟩ := Option.map_eq_some'.mp hbo.symm
        exact OrderContainer.noConfusion hinj
    · subst hsb
      refine ⟨rfl, rfl, rfl, rfl, rfl, rfl, rfl, rfl, ?_, ?_, ?_⟩
      · intro b hb
        rw [hbo] at hb
        injection hb with hb2
        exact OrderContainer.noConfusion hb2
      · intro o2 ho2
        rw [ho2] at hbo
        injection hbo with hb2
        exact OrderContainer.noConfusion hb2
      · intro a ha
        rw [ha] at hbo
        injection hbo with hb2
        injection hb2 with hb3
        subst hb3
        exact ⟨rfl, bk, hp, hbk, rfl, rfl, hpt⟩
  rcases hpr : s.partialRemainder with _ | o
  · simp only [nextAskContainer, hpr] at h
    obtain ⟨f1, f2, f3, f4, f5, f6, f7, f8, f9, f10, f11⟩ := hbook h
    rw [hpr] at f5
    refine ⟨f1, f2, f3, f4, f5, f6, f7, f8, f9, ?_, f11⟩
    intro o2 ho2
    exact absurd ho2 (f10 o2)
  · by_cases hob : o.isBid = false
    · simp only [nextAskContainer, hpr, if_pos hob] at h
      rw [Prod.mk.injEq] at h
      obtain ⟨h1, h2⟩ := h
      subst h1
      subst h2
      refine ⟨rfl, rfl, rfl, rfl, hpr, rfl, rfl, rfl, ?_, ?_, ?_⟩
      · intro b hb
        injection hb with hb2
        exact OrderContainer.noConfusion hb2
      · intro o2 ho2
        injection ho2 with ho3
        injection ho3 with ho4
        subst ho4
        exact ⟨rfl, hob, rfl⟩
      · intro a ha
        injection ha with ha2
        exact OrderContainer.noConfusion ha2
    · simp only [nextAskContainer, hpr, if_neg hob] at h
      obtain ⟨f1, f2, f3, f4, f5, f6, f7, f8, f9, f10, f11⟩ := hbook h
      rw [hpr] at f5
      refine ⟨f1, f2, f3, f4, f5, f6, f7, f8, f9, ?_, f11⟩
      intro o2 ho2
      exact absurd ho2 (f10 o2)

theorem executeMatch_ammAsk_step (s : VolumeFillMatcher)
    (bid : OrderContainer) (a : AmmOrder) (bidQ askQ : Nat)
    (hba : bid.isAmm = false)
    (hbi : s.bidIdx < s.bidOutcomes.length)
    (hbnc : notComplete
      (s.bidOutcomes.getD s.bidIdx OrderFillState.CompleteFill) = true) :
    (executeMatch s bid (OrderContainer.amm a) bidQ askQ).book = s.book
    ∧ (executeMatch s bid (OrderContainer.amm a) bidQ askQ).bidIdx = s.bidIdx
    ∧ (executeMatch s bid (OrderContainer.amm a) bidQ askQ).askIdx = s.askIdx
    ∧ (executeMatch s bid (OrderContainer.amm a) bidQ askQ).askOutcomes =
        s.askOutcomes
    ∧ (executeMatch s bid (OrderContainer.amm a) bidQ askQ).bidOutcomes.length =
        s.bidOutcomes.length
    ∧ (executeMatch s bid (OrderContainer.amm a) bidQ askQ).bidXpool = s.bidXpool
    ∧ (executeMatch s bid (OrderContainer.amm a) bidQ askQ).askXpool = s.askXpool
    ∧ (executeMatch s bid (OrderContainer.amm a) bidQ askQ).ammPrice =
        some ((a.fill (min askQ bidQ)).endBound)
    ∧ (bidQ = askQ ∨ bidQ < askQ →
        matcherMeasure (executeMatch s bid (OrderContainer.amm a) bidQ askQ) <
            matcherMeasure s
        ∧ (executeMatch s bid (OrderContainer.amm a) bidQ askQ).partialRemainder
            = none)
    ∧ (askQ < bidQ →
        matcherMeasure (executeMatch s bid (OrderContainer.amm a) bidQ askQ) =
            matcherMeasure s
        ∧ (executeMatch s bid (OrderContainer.amm a) bidQ askQ).partialRemainder
            = bid.fillRemainder askQ
        ∧ notComplete ((executeMatch s bid (OrderContainer.amm a) bidQ
            askQ).bidOutcomes.getD s.bidIdx OrderFillState.CompleteFill) =
              true) := by
  have hside := ammSideUpdate_ammAsk
    (recordVolumes s bid (OrderContainer.amm a) (min askQ bidQ)) bid a
    (min askQ bidQ) hba
  have hx : executeMatch s bid (OrderContainer.amm a) bidQ askQ =
      goodStateCheckpoint
        (if bidQ = askQ then
          settleEqual (applyAmmFill
            (recordVolumes s bid (OrderContainer.amm a) (min askQ bidQ)) a
            (min askQ bidQ) false) bid (OrderContainer.amm a)
         else if askQ < bidQ then
          settleGreater (applyAmmFill
            (recordVolumes s bid (OrderContainer.amm a) (min askQ bidQ)) a
            (min askQ bidQ) false) bid (OrderContainer.amm a)
            (min askQ bidQ) askQ
         else
          settleLess (applyAmmFill
            (recordVolumes s bid (OrderContainer.amm a) (min askQ bidQ)) a
            (min askQ bidQ) false) bid (OrderContainer.amm a)
            (min askQ bidQ) bidQ) := by
    simp only [executeMatch, hside]
  rw [hx]
  have e1 : (applyAmmFill
      (recordVolumes s bid (OrderContainer.amm a) (min askQ bidQ)) a
      (min askQ bidQ) false).bidOutcomes = s.bidOutcomes := rfl
  have e2 : (applyAmmFill
      (recordVolumes s bid (OrderContainer.amm a) (min askQ bidQ)) a
      (min askQ bidQ) false).askOutcomes = s.askOutcomes := rfl
  have e3 : (applyAmmFill
      (recordVolumes s bid (OrderContainer.amm a) (min askQ bidQ)) a
      (min askQ bidQ) false).bidIdx = s.bidIdx := rfl
  have e4 : (applyAmmFill
      (recordVolumes s bid (OrderContainer.amm a) (min askQ bidQ)) a
      (min askQ bidQ) false).askIdx = s.askIdx := rfl
  have e5 : (applyAmmFill
      (recordVolumes s bid (OrderContainer.amm a) (min askQ bidQ)) a
      (min askQ bidQ) false).book = s.book := rfl
  have e6 : (applyAmmFill
      (recordVolumes s bid (OrderContainer.amm a) (min askQ bidQ)) a
      (min askQ bidQ) false).ammPrice =
        some ((a.fill (min askQ bidQ)).endBound) := rfl
  have e7 : (applyAmmFill
      (recordVolumes s bid (OrderContainer.amm a) (min askQ bidQ)) a
      (min askQ bidQ) false).bidXpool = s.bidXpool := rfl
  have e8 : (applyAmmFill
      (recordVolumes s bid (OrderContainer.amm a) (min askQ bidQ)) a
      (min askQ bidQ) false).askXpool = s.askXpool := rfl
  by_cases h1 : bidQ = askQ
  · rw [if_pos h1]
    obtain ⟨g1, g2, g3, g4, g5, g6, g7⟩ := goodStateCheckpoint_fields
      (settleEqual (applyAmmFill
        (recordVolumes s bid (OrderContainer.amm a) (min askQ bidQ)) a
        (min askQ bidQ) false) bid (OrderContainer.amm a))
    obtain ⟨gx1, gx2⟩ := goodStateCheckpoint_xpool
      (settleEqual (applyAmmFill
        (recordVolumes s bid (OrderContainer.amm a) (min askQ bidQ)) a
        (min askQ bidQ) false) bid (OrderContainer.amm a))
    obtain ⟨q1, q2, q3, q4, q5, q6, q7, q8, q9⟩ := settleEqual_fields_ammAsk
      (applyAmmFill
        (recordVolumes s bid (OrderContainer.amm a) (min askQ bidQ)) a
        (min askQ bidQ) false) bid a hba
    refine ⟨?_, ?_, ?_, ?_, ?_, ?_, ?_, ?_, ?_, ?_⟩
    · rw [g4, q4, e5]
    · rw [g6, q6, e3]
    · rw [g7, q7, e4]
    · rw [g2, q2, e2]
    · rw [g1, q1, e1, e3, List.length_set]
    · rw [gx1, q8, e7]
    · rw [gx2, q9, e8]
    · rw [g5, q5, e6]
    · intro _
      refine ⟨?_, ?_⟩
      · unfold matcherMeasure
        rw [g1, g2, q1, q2, e1, e2, e3]
        have d1 := countNC_set_complete s.bidOutcomes s.bidIdx hbi hbnc
        omega
      · rw [g3, q3]
    · intro hlt
      omega
  · rw [if_neg h1]
    by_cases h2 : askQ < bidQ
    · rw [if_pos h2]
      obtain ⟨g1, g2, g3, g4, g5, g6, g7⟩ := goodStateCheckpoint_fields
        (settleGreater (applyAmmFill
          (recordVolumes s bid (OrderContainer.amm a) (min askQ bidQ)) a
          (min askQ bidQ) false) bid (OrderContainer.amm a)
          (min askQ bidQ) askQ)
      obtain ⟨gx1, gx2⟩ := goodStateCheckpoint_xpool
        (settleGreater (applyAmmFill
          (recordVolumes s bid (OrderContainer.amm a) (min askQ bidQ)) a
          (min askQ bidQ) false) bid (OrderContainer.amm a)
          (min askQ bidQ) askQ)
      obtain ⟨q1, q2, q3, q4, q5, q6, q7, q8, q9⟩ := settleGreater_fields_ammAsk
        (applyAmmFill
          (recordVolumes s bid (OrderContainer.amm a) (min askQ bidQ)) a
          (min askQ bidQ) false) bid a (min askQ bidQ) askQ hba
      have hvnc : notComplete
          ((s.bidOutcomes.getD s.bidIdx OrderFillState.Unfilled).partialFill
            (min askQ bidQ)) = true := by
        refine notComplete_partialFill _ _ ?_
        rw [getD_irrel_of_lt _ _ _ OrderFillState.CompleteFill hbi]
        exact hbnc
      refine ⟨?_, ?_, ?_, ?_, ?_, ?_, ?_, ?_, ?_, ?_⟩
      · rw [g4, q4, e5]
      · rw [g6, q6, e3]
      · rw [g7, q7, e4]
      · rw [g2, q2, e2]
      · rw [g1, q1, e1, e3, List.length_set]
      · rw [gx1, q8, e7]
      · rw [gx2, q9, e8]
      · rw [g5, q5, e6]
      · intro hcmp
        omega
      · intro _
        refine ⟨?_, ?_, ?_⟩
        · unfold matcherMeasure
          rw [g1, g2, q1, q2, e1, e2, e3]
          have d1 := countNC_set_keep s.bidOutcomes s.bidIdx _ hbi hbnc hvnc
          omega
        · rw [g3, q3]
        · rw [g1, q1, e1, e3]
          rw [getD_set_self _ _ _ _ hbi]
          exact hvnc
    · rw [if_neg h2]
      obtain ⟨g1, g2, g3, g4, g5, g6, g7⟩ := goodStateCheckpoint_fields
        (settleLess (applyAmmFill
          (recordVolumes s bid (OrderContainer.amm a) (min askQ bidQ)) a
          (min askQ bidQ) false) bid (OrderContainer.amm a)
          (min askQ bidQ) bidQ)
      obtain ⟨gx1, gx2⟩ := goodStateCheckpoint_xpool
        (settleLess (applyAmmFill
          (recordVolumes s bid (OrderContainer.amm a) (min askQ bidQ)) a
          (min askQ bidQ) false) bid (OrderContainer.amm a)
          (min askQ bidQ) bidQ)
      obtain ⟨q1, q2, q3, q4, q5, q6, q7, q8, q9⟩ := settleLess_fields_ammAsk
        (applyAmmFill
          (recordVolumes s bid (OrderContainer.amm a) (min askQ bidQ)) a
          (min askQ bidQ) false) bid a (min askQ bidQ) bidQ hba
      refine ⟨?_, ?_, ?_, ?_, ?_, ?_, ?_, ?_, ?_, ?_⟩
      · rw [g4, q4, e5]
      · rw [g6, q6, e3]
      · rw [g7, q7, e4]
      · rw [g2, q2, e2]
      · rw [g1, q1, e1, e3, List.length_set]
      · rw [gx1, q8, e7]
      · rw [gx2, q9, e8]
      · rw [g5, q5, e6]
      · intro _
        refine ⟨?_, ?_⟩
        · unfold matcherMeasure
          rw [g1, g2, q1, q2, e1, e2, e3]
          have d1 := countNC_set_complete s.bidOutcomes s.bidIdx hbi hbnc
          omega
        · rw [g3, q3]
      · intro hlt
        omega

theorem executeMatch_ammBid_step (s : VolumeFillMatcher)
    (a : AmmOrder) (ask : OrderContainer) (bidQ askQ : Nat)
    (haa : ask.isAmm = false)
    (hai : s.askIdx < s.askOutcomes.length)
    (hanc : notComplete
      (s.askOutcomes.getD s.askIdx OrderFillState.CompleteFill) = true) :
    (executeMatch s (OrderContainer.amm a) ask bidQ askQ).book = s.book
    ∧ (executeMatch s (OrderContainer.amm a) ask bidQ askQ).bidIdx = s.bidIdx
    ∧ (executeMatch s (OrderContainer.amm a) ask bidQ askQ).askIdx = s.askIdx
    ∧ (executeMatch s (OrderContainer.amm a) ask bidQ askQ).bidOutcomes =
        s.bidOutcomes
    ∧ (executeMatch s (OrderContainer.amm a) ask bidQ askQ).askOutcomes.length =
        s.askOutcomes.length
    ∧ (executeMatch s (OrderContainer.amm a) ask bidQ askQ).bidXpool = s.bidXpool
    ∧ (executeMatch s (OrderContainer.amm a) ask bidQ askQ).askXpool = s.askXpool
    ∧ (executeMatch s (OrderContainer.amm a) ask bidQ askQ).ammPrice =
        some ((a.fill (min askQ bidQ)).endBound)
    ∧ (bidQ = askQ ∨ askQ < bidQ →
        matcherMeasure (executeMatch s (OrderContainer.amm a) ask bidQ askQ) <
            matcherMeasure s
        ∧ (executeMatch s (OrderContainer.amm a) ask bidQ askQ).partialRemainder
            = none)
    ∧ (bidQ < askQ →
        matcherMeasure (executeMatch s (OrderContainer.amm a) ask bidQ askQ) =
            matcherMeasure s
        ∧ (executeMatch s (OrderContainer.amm a) ask bidQ askQ).partialRemainder
            = ask.fillRemainder bidQ
        ∧ notComplete ((executeMatch s (OrderContainer.amm a) ask bidQ
            askQ).askOutcomes.getD s.askIdx OrderFillState.CompleteFill) =
              true) := by
  have hside := ammSideUpdate_ammBid
    (recordVolumes s (OrderContainer.amm a) ask (min askQ bidQ)) a ask
    (min askQ bidQ)
  have hx : executeMatch s (OrderContainer.amm a) ask bidQ askQ =
      goodStateCheckpoint
        (if bidQ = askQ then
          settleEqual (applyAmmFill
            (recordVolumes s (OrderContainer.amm a) ask (min askQ bidQ)) a
            (min askQ bidQ) true) (OrderContainer.amm a) ask
         else if askQ < bidQ then
          settleGreater (applyAmmFill
            (recordVolumes s (OrderContainer.amm a) ask (min askQ bidQ)) a
            (min askQ bidQ) true) (OrderContainer.amm a) ask
            (min askQ bidQ) askQ
         else
          settleLess (applyAmmFill
            (recordVolumes s (OrderContainer.amm a) ask (min askQ bidQ)) a
            (min askQ bidQ) true) (OrderContainer.amm a) ask
            (min askQ bidQ) bidQ) := by
    simp only [executeMatch, hside]
  rw [hx]
  have e1 : (applyAmmFill
      (recordVolumes s (OrderContainer.amm a) ask (min askQ bidQ)) a
      (min askQ bidQ) true).bidOutcomes = s.bidOutcomes := rfl
  have e2 : (applyAmmFill
      (recordVolumes s (OrderContainer.amm a) ask (min askQ bidQ)) a
      (min askQ bidQ) true).askOutcomes = s.askOutcomes := rfl
  have e3 : (applyAmmFill
      (recordVolumes s (OrderContainer.amm a) ask (min askQ bidQ)) a
      (min askQ bidQ) true).bidIdx = s.bidIdx := rfl
  have e4 : (applyAmmFill
      (recordVolumes s (OrderContainer.amm a) ask (min askQ bidQ)) a
      (min askQ bidQ) true).askIdx = s.askIdx := rfl
  have e5 : (applyAmmFill
      (recordVolumes s (OrderContainer.amm a) ask (min askQ bidQ)) a
      (min askQ bidQ) true).book = s.book := rfl
  have e6 : (applyAmmFill
      (recordVolumes s (OrderContainer.amm a) ask (min askQ bidQ)) a
      (min askQ bidQ) true).ammPrice =
        some ((a.fill (min askQ bidQ)).endBound) := rfl
  have e7 : (applyAmmFill
      (recordVolumes s (OrderContainer.amm a) ask (min askQ bidQ)) a
      (min askQ bidQ) true).bidXpool = s.bidXpool := rfl
  have e8 : (applyAmmFill
      (recordVolumes s (OrderContainer.amm a) ask (min askQ bidQ)) a
      (min askQ bidQ) true).askXpool = s.askXpool := rfl
  by_cases h1 : bidQ = askQ
  · rw [if_pos h1]
    obtain ⟨g1, g2, g3, g4, g5, g6, g7⟩ := goodStateCheckpoint_fields
      (settleEqual (applyAmmFill
        (recordVolumes s (OrderContainer.amm a) ask (min askQ bidQ)) a
        (min askQ bidQ) true) (OrderContainer.amm a) ask)
    obtain ⟨gx1, gx2⟩ := goodStateCheckpoint_xpool
      (settleEqual (applyAmmFill
        (recordVolumes s (OrderContainer.amm a) ask (min askQ bidQ)) a
        (min askQ bidQ) true) (OrderContainer.amm a) ask)
    obtain ⟨q1, q2, q3, q4, q5, q6, q7, q8, q9⟩ := settleEqual_fields_ammBid
      (applyAmmFill
        (recordVolumes s (OrderContainer.amm a) ask (min askQ bidQ)) a
        (min askQ bidQ) true) a ask haa
    refine ⟨?_, ?_, ?_, ?_, ?_, ?_, ?_, ?_, ?_, ?_⟩
    · rw [g4, q4, e5]
    · rw [g6, q6, e3]
    · rw [g7, q7, e4]
    · rw [g1, q2, e1]
    · rw [g2, q1, e2, e4, List.length_set]
    · rw [gx1, q8, e7]
    · rw [gx2, q9, e8]
    · rw [g5, q5, e6]
    · intro _
      refine ⟨?_, ?_⟩
      · unfold matcherMeasure
        rw [g1, g2, q1, q2, e1, e2, e4]
        have d1 := countNC_set_complete s.askOutcomes s.askIdx hai hanc
        omega
      · rw [g3, q3]
    · intro hlt
      omega
  · rw [if_neg h1]
    by_cases h2 : askQ < bidQ
    · rw [if_pos h2]
      obtain ⟨g1, g2, g3, g4, g5, g6, g7⟩ := goodStateCheckpoint_fields
        (settleGreater (applyAmmFill
          (recordVolumes s (OrderContainer.amm a) ask (min askQ bidQ)) a
          (min askQ bidQ) true) (OrderContainer.amm a) ask
          (min askQ bidQ) askQ)
      obtain ⟨gx1, gx2⟩ := goodStateCheckpoint_xpool
        (settleGreater (applyAmmFill
          (recordVolumes s (OrderContainer.amm a) ask (min askQ bidQ)) a
          (min askQ bidQ) true) (OrderContainer.amm a) ask
          (min askQ bidQ) askQ)
      obtain ⟨q1, q2, q3, q4, q5, q6, q7, q8, q9⟩ := settleGreater_fields_ammBid
        (applyAmmFill
          (recordVolumes s (OrderContainer.amm a) ask (min askQ bidQ)) a
          (min askQ bidQ) true) a ask (min askQ bidQ) askQ haa
      refine ⟨?_, ?_, ?_, ?_, ?_, ?_, ?_, ?_, ?_, ?_⟩
      · rw [g4, q4, e5]
      · rw [g6, q6, e3]
      · rw [g7, q7, e4]
      · rw [g1, q2, e1]
      · rw [g2, q1, e2, e4, List.length_set]
      · rw [gx1, q8, e7]
      · rw [gx2, q9, e8]
      · rw [g5, q5, e6]
      · intro _
        refine ⟨?_, ?_⟩
        · unfold matcherMeasure
          rw [g1, g2, q1, q2, e1, e2, e4]
          have d1 := countNC_set_complete s.askOutcomes s.askIdx hai hanc
          omega
        · rw [g3, q3]
      · intro hlt
        omega
    · rw [if_neg h2]
      obtain ⟨g1, g2, g3, g4, g5, g6, g7⟩ := goodStateCheckpoint_fields
        (settleLess (applyAmmFill
          (recordVolumes s (OrderContainer.amm a) ask (min askQ bidQ)) a
          (min askQ bidQ) true) (OrderContainer.amm a) ask
          (min askQ bidQ) bidQ)
      obtain ⟨gx1, gx2⟩ := goodStateCheckpoint_xpool
        (settleLess (applyAmmFill
          (recordVolumes s (OrderContainer.amm a) ask (min askQ bidQ)) a
          (min askQ bidQ) true) (OrderContainer.amm a) ask
          (min askQ bidQ) bidQ)
      obtain ⟨q1, q2, q3, q4, q5, q6, q7, q8, q9⟩ := settleLess_fields_ammBid
        (applyAmmFill
          (recordVolumes s (OrderContainer.amm a) ask (min askQ bidQ)) a
          (min askQ bidQ) true) a ask (min askQ bidQ) bidQ haa
      have hvnc : notComplete
          ((s.askOutcomes.getD s.askIdx OrderFillState.Unfilled).partialFill
            (min askQ bidQ)) = true := by
        refine notComplete_partialFill _ _ ?_
        rw [getD_irrel_of_lt _ _ _ OrderFillState.CompleteFill hai]
        exact hanc
      refine ⟨?_, ?_, ?_, ?_, ?_, ?_, ?_, ?_, ?_, ?_⟩
      · rw [g4, q4, e5]
      · rw [g6, q6, e3]
      · rw [g7, q7, e4]
      · rw [g1, q2, e1]
      · rw [g2, q1, e2, e4, List.length_set]
      · rw [gx1, q8, e7]
      · rw [gx2, q9, e8]
      · rw [g5, q5, e6]
      · intro hcmp
        omega
      · intro _
        refine ⟨?_, ?_, ?_⟩
        · unfold matcherMeasure
          rw [g1, g2, q1, q2, e1, e2, e4]
          have d1 := countNC_set_keep s.askOutcomes s.askIdx _ hai hanc hvnc
          omega
        · rw [g3, q3]
        · rw [g2, q1, e2, e4]
          rw [getD_set_self _ _ _ _ hai]
          exact hvnc

theorem fillStep_inr_stepG (s sNext : VolumeFillMatcher) (hinv : MatcherInvG s)
    (h : fillStep s = Sum.inr sNext) :
    MatcherInvG sNext ∧
      (matcherMeasure sNext < matcherMeasure s ∨
        (matcherMeasure sNext = matcherMeasure s ∧
          (PostAmmAsk sNext ∨ PostAmmBid sNext))) := by
  rcases hb : nextBidContainer s with ⟨sb, _ | bid⟩
  · simp only [fillStep, hb] at h
    exact Sum.noConfusion h
  · rcases ha : nextAskContainer sb with ⟨sa, _ | ask⟩
    · simp only [fillStep, hb, ha] at h
      exact Sum.noConfusion h
    · obtain ⟨cb1, cb2, cb3, cb4, cb5, cb6, cbx1, cbx2, cb7, cb8, cb9⟩ :=
        nextBidContainer_charG s sb _ hinv.bidLen hb
      have haLen : sb.askOutcomes.length = sb.book.asks.length := by
        rw [cb3, cb1]
        exact hinv.askLen
      obtain ⟨ca1, ca2, ca3, ca4, ca5, ca6, cax1, cax2, ca7, ca8, ca9⟩ :=
        nextAskContainer_charG sb sa _ haLen ha
      have hsaBidOut : sa.bidOutcomes = s.bidOutcomes := by
        rw [ca2, cb2]
      have hsaAskOut : sa.askOutcomes = s.askOutcomes := by
        rw [ca3, cb3]
      have hsaBook : sa.book = s.book := by
        rw [ca1, cb1]
      have hbfactsI : bid.isAmm = false →
          sa.bidIdx < sa.bidOutcomes.length
          ∧ notComplete (sa.bidOutcomes.getD sa.bidIdx
              OrderFillState.CompleteFill) = true
          ∧ (∀ b, bid.bookData = some b → b.isBid = true) := by
        intro hba
        cases bid with
        | amm x => exact Bool.noConfusion hba
        | bookOrder b =>
            obtain ⟨k1, k2, k3⟩ := cb7 b rfl
            refine ⟨?_, ?_, ?_⟩
            · rw [ca4, hsaBidOut, hinv.bidLen]
              exact k1
            · rw [ca4, hsaBidOut, ← cb2, k3]
              rfl
            · intro bb hb2
              injection hb2 with hb3
              subst hb3
              exact hinv.bidsDir _ (List.get?_mem k2)
        | bookOrderFragment o =>
            obtain ⟨k1, k2, k3⟩ := cb8 o rfl
            subst k3
            obtain ⟨m1, m2⟩ := hinv.fragBid o k1 k2
            refine ⟨?_, ?_, ?_⟩
            · rw [ca4, hsaBidOut]
              exact m1
            · rw [ca4, hsaBidOut]
              exact m2
            · intro bb hb2
              injection hb2 with hb3
              subst hb3
              exact k2
      have hafactsI : ask.isAmm = false →
          sa.askIdx < sa.askOutcomes.length
          ∧ notComplete (sa.askOutcomes.getD sa.askIdx
              OrderFillState.CompleteFill) = true
          ∧ (∀ b, ask.bookData = some b → b.isBid = false) := by
        intro haa
        cases ask with
        | amm x => exact Bool.noConfusion haa
        | bookOrder b =>
            obtain ⟨k1, k2, k3⟩ := ca7 b rfl
            refine ⟨?_, ?_, ?_⟩
            · rw [hsaAskOut, hinv.askLen]
              rw [cb1] at k1
              exact k1
            · rw [k3]
              rfl
            · intro bb hb2
              injection hb2 with hb3
              subst hb3
              have hmem := List.get?_mem k2
              rw [cb1] at hmem
              exact hinv.asksDir _ hmem
        | bookOrderFragment o =>
            obtain ⟨k1, k2, k3⟩ := ca8 o rfl
            subst k3
            rw [cb5] at k1
            obtain ⟨m1, m2⟩ := hinv.fragAsk o k1 k2
            refine ⟨?_, ?_, ?_⟩
            · rw [cb4, cb3]
              exact m1
            · rw [cb4, cb3]
              exact m2
            · intro bb hb2
              injection hb2 with hb3
              subst hb3
              exact k2
      have hbidcase : bid.isAmm = false ∨ ∃ a2, bid = OrderContainer.amm a2 := by
        cases bid with
        | amm x => exact Or.inr ⟨x, rfl⟩
        | bookOrder o => exact Or.inl rfl
        | bookOrderFragment o => exact Or.inl rfl
      have haskcase : ask.isAmm = false ∨ ∃ a2, ask = OrderContainer.amm a2 := by
        cases ask with
        | amm x => exact Or.inr ⟨x, rfl⟩
        | bookOrder o => exact Or.inl rfl
        | bookOrderFragment o => exact Or.inl rfl
      rcases hbidcase with hba | ⟨aB, rfl⟩
      · rcases haskcase with haa | ⟨aA, rfl⟩
        · -- both sides are resting orders: an outcome is completed
          simp only [fillStep, hb, ha, hba, haa, Bool.false_and,
            Bool.false_eq_true, if_false] at h
          by_cases hcross : bid.price < ask.price
          · rw [if_pos hcross] at h
            exact Sum.noConfusion h
          · rw [if_neg hcross] at h
            by_cases hzero : ask.quantity bid.price = 0 ∨
                bid.quantity ask.price = 0
            · rw [if_pos hzero] at h
              exact Sum.noConfusion h
            · rw [if_neg hzero] at h
              injection h with h2
              subst h2
              obtain ⟨hbi, hbnc, hbdir⟩ := hbfactsI hba
              obtain ⟨hai, hanc, hadir⟩ := hafactsI haa
              obtain ⟨w1, w2, w3, w4, w5, w6, w7⟩ :=
                executeMatch_noAmm_step sa bid ask (bid.quantity ask.price)
                  (ask.quantity bid.price) hba haa hbi hbnc hai hanc
                  hbdir hadir
              refine ⟨⟨?_, ?_, ?_, ?_, w6, w7⟩, ?_⟩
              · rw [w4, hsaBidOut, w2, hsaBook]
                exact hinv.bidLen
              · rw [w5, hsaAskOut, w2, hsaBook]
                exact hinv.askLen
              · rw [w2, hsaBook]
                exact hinv.bidsDir
              · rw [w2, hsaBook]
                exact hinv.asksDir
              · have hms : matcherMeasure sa = matcherMeasure s := by
                  unfold matcherMeasure
                  rw [hsaBidOut, hsaAskOut]
                rw [← hms]
                exact Or.inl w1
        · -- the ask side is the synthetic AMM order
          obtain ⟨hsasb, bk, hpfact, hbkfact, htarget, haside, hpt⟩ :=
            ca9 aA rfl
          subst hsasb
          have hbt : (OrderContainer.amm aA).isAmm = true := rfl
          simp only [fillStep, hb, ha, hba, Bool.false_and,
            Bool.false_eq_true, if_false] at h
          by_cases hcross : bid.price < (OrderContainer.amm aA).price
          · rw [if_pos hcross] at h
            exact Sum.noConfusion h
          · rw [if_neg hcross] at h
            by_cases hzero : (OrderContainer.amm aA).quantity bid.price = 0 ∨
                bid.quantity (OrderContainer.amm aA).price = 0
            · rw [if_pos hzero] at h
              exact Sum.noConfusion h
            · rw [if_neg hzero] at h
              injection h with h2
              subst h2
              obtain ⟨hbi, hbnc, hbdir⟩ := hbfactsI hba
              obtain ⟨m1, m2, m3, m4, m5, m6, m7, m8, m9, m10⟩ :=
                executeMatch_ammAsk_step sa bid aA
                  (bid.quantity (OrderContainer.amm aA).price)
                  ((OrderContainer.amm aA).quantity bid.price) hba hbi hbnc
              have hms : matcherMeasure sa = matcherMeasure s := by
                unfold matcherMeasure
                rw [cb2, cb3]
              rcases Nat.lt_trichotomy
                  (bid.quantity (OrderContainer.amm aA).price)
                  ((OrderContainer.amm aA).quantity bid.price) with
                hlt | heq | hgt
              · obtain ⟨hdec, hprn⟩ := m9 (Or.inr hlt)
                refine ⟨⟨?_, ?_, ?_, ?_, ?_, ?_⟩, Or.inl (by omega)⟩
                · rw [m5, cb2, m1, cb1]
                  exact hinv.bidLen
                · rw [m4, cb3, m1, cb1]
                  exact hinv.askLen
                · rw [m1, cb1]
                  exact hinv.bidsDir
                · rw [m1, cb1]
                  exact hinv.asksDir
                · intro o ho
                  rw [hprn] at ho
                  exact Option.noConfusion ho
                · intro o ho
                  rw [hprn] at ho
                  exact Option.noConfusion ho
              · obtain ⟨hdec, hprn⟩ := m9 (Or.inl heq)
                refine ⟨⟨?_, ?_, ?_, ?_, ?_, ?_⟩, Or.inl (by omega)⟩
                · rw [m5, cb2, m1, cb1]
                  exact hinv.bidLen
                · rw [m4, cb3, m1, cb1]
                  exact hinv.askLen
                · rw [m1, cb1]
                  exact hinv.bidsDir
                · rw [m1, cb1]
                  exact hinv.asksDir
                · intro o ho
                  rw [hprn] at ho
                  exact Option.noConfusion ho
                · intro o ho
                  rw [hprn] at ho
                  exact Option.noConfusion ho
              · obtain ⟨hmeq, hprf, hnc⟩ := m10 hgt
                obtain ⟨b, hbD⟩ := bookData_of_not_amm bid hba
                have hbprice : bid.price = b.price := bookData_price bid b hbD
                have hble : aA.startPrice ≤ bid.price := Nat.not_lt.mp hcross
                have haskq : (OrderContainer.amm aA).quantity bid.price =
                    min bk.price bid.price - aA.startPrice := by
                  simp only [OrderContainer.quantity, ammQuantity, haside,
                    eq_self_iff_true, if_true]
                  rw [htarget]
                have hmin : min ((OrderContainer.amm aA).quantity bid.price)
                    (bid.quantity (OrderContainer.amm aA).price) =
                      (OrderContainer.amm aA).quantity bid.price := by
                  omega
                have hend2 : (aA.fill
                    (min ((OrderContainer.amm aA).quantity bid.price)
                      (bid.quantity (OrderContainer.amm aA).price))).endBound =
                      min bk.price b.price := by
                  simp only [AmmOrder.fill, haside, eq_self_iff_true, if_true]
                  rw [hmin, haskq, ← hbprice]
                  omega
                refine ⟨⟨?_, ?_, ?_, ?_, ?_, ?_⟩,
                  Or.inr ⟨by omega, Or.inl ?_⟩⟩
                · rw [m5, cb2, m1, cb1]
                  exact hinv.bidLen
                · rw [m4, cb3, m1, cb1]
                  exact hinv.askLen
                · rw [m1, cb1]
                  exact hinv.bidsDir
                · rw [m1, cb1]
                  exact hinv.asksDir
                · intro o ho hot
                  refine ⟨?_, ?_⟩
                  · rw [m2, m5]
                    exact hbi
                  · rw [m2]
                    exact hnc
                · intro o ho hof
                  rw [hprf] at ho
                  obtain ⟨b2, hbD2, hop2, hob2⟩ :=
                    fillRemainder_price bid
                      ((OrderContainer.amm aA).quantity bid.price) o ho
                  have hbt2 := hbdir b2 hbD2
                  rw [hob2, hbt2] at hof
                  exact Bool.noConfusion hof
                · refine ⟨{ b with quantity :=
                      b.quantity - (OrderContainer.amm aA).quantity bid.price },
                    bk, ?_, ?_, ?_, ?_⟩
                  · rw [hprf]
                    simp only [OrderContainer.fillRemainder, hbD,
                      Option.map_some']
                  · exact hbdir b hbD
                  · rw [m1, m4, m7, m3]
                    exact hbkfact
                  · rw [m8, hend2]
      · rcases haskcase with haa | ⟨aA, rfl⟩
        · -- the bid side is the synthetic AMM order
          obtain ⟨hsbs, bk, hpfact, hbkfact, htarget, haside, hpt⟩ :=
            cb9 aB rfl
          have hbt : (OrderContainer.amm aB).isAmm = true := rfl
          simp only [fillStep, hb, ha, hbt, haa, Bool.true_and,
            Bool.false_eq_true, if_false] at h
          by_cases hcross : (OrderContainer.amm aB).price < ask.price
          · rw [if_pos hcross] at h
            exact Sum.noConfusion h
          · rw [if_neg hcross] at h
            by_cases hzero : ask.quantity (OrderContainer.amm aB).price = 0 ∨
                (OrderContainer.amm aB).quantity ask.price = 0
            · rw [if_pos hzero] at h
              exact Sum.noConfusion h
            · rw [if_neg hzero] at h
              injection h with h2
              subst h2
              obtain ⟨hai, hanc, hadir⟩ := hafactsI haa
              obtain ⟨m1, m2, m3, m4, m5, m6, m7, m8, m9, m10⟩ :=
                executeMatch_ammBid_step sa aB ask
                  ((OrderContainer.amm aB).quantity ask.price)
                  (ask.quantity (OrderContainer.amm aB).price) haa hai hanc
              have hms : matcherMeasure sa = matcherMeasure s := by
                unfold matcherMeasure
                rw [hsaBidOut, hsaAskOut]
              rcases Nat.lt_trichotomy
                  ((OrderContainer.amm aB).quantity ask.price)
                  (ask.quantity (OrderContainer.amm aB).price) with
                hlt | heq | hgt
              · obtain ⟨hmeq, hprf, hnc⟩ := m10 hlt
                obtain ⟨b, hbD⟩ := bookData_of_not_amm ask haa
                have hbprice : ask.price = b.price := bookData_price ask b hbD
                have hale : ask.price ≤ aB.startPrice := Nat.not_lt.mp hcross
                have hbidq : (OrderContainer.amm aB).quantity ask.price =
                    aB.startPrice - max bk.price ask.price := by
                  simp only [OrderContainer.quantity, ammQuantity, haside,
                    Bool.false_eq_true, if_false]
                  rw [htarget]
                have hmin : min (ask.quantity (OrderContainer.amm aB).price)
                    ((OrderContainer.amm aB).quantity ask.price) =
                      (OrderContainer.amm aB).quantity ask.price := by
                  omega
                have hend2 : (aB.fill
                    (min (ask.quantity (OrderContainer.amm aB).price)
                      ((OrderContainer.amm aB).quantity ask.price))).endBound =
                      max bk.price b.price := by
                  simp only [AmmOrder.fill, haside, Bool.false_eq_true,
                    if_false]
                  rw [hmin, hbidq, ← hbprice]
                  omega
                refine ⟨⟨?_, ?_, ?_, ?_, ?_, ?_⟩,
                  Or.inr ⟨by omega, Or.inr ?_⟩⟩
                · rw [m4, hsaBidOut, m1, hsaBook]
                  exact hinv.bidLen
                · rw [m5, hsaAskOut, m1, hsaBook]
                  exact hinv.askLen
                · rw [m1, hsaBook]
                  exact hinv.bidsDir
                · rw [m1, hsaBook]
                  exact hinv.asksDir
                · intro o ho hot
                  rw [hprf] at ho
                  obtain ⟨b2, hbD2, hop2, hob2⟩ :=
                    fillRemainder_price ask
                      ((OrderContainer.amm aB).quantity ask.price) o ho
                  have haf2 := hadir b2 hbD2
                  rw [hob2, haf2] at hot
                  exact Bool.noConfusion hot
                · intro o ho hof
                  refine ⟨?_, ?_⟩
                  · rw [m3, m5]
                    exact hai
                  · rw [m3]
                    exact hnc
                · refine ⟨{ b with quantity :=
                      b.quantity - (OrderContainer.amm aB).quantity ask.price },
                    bk, ?_, ?_, ?_, ?_⟩
                  · rw [hprf]
                    simp only [OrderContainer.fillRemainder, hbD,
                      Option.map_some']
                  · exact hadir b hbD
                  · rw [m1, m4, m6, m2, ca1, ca2, cax1, ca4, hsbs]
                    exact hbkfact
                  · rw [m8, hend2]
              · obtain ⟨hdec, hprn⟩ := m9 (Or.inl heq)
                refine ⟨⟨?_, ?_, ?_, ?_, ?_, ?_⟩, Or.inl (by omega)⟩
                · rw [m4, hsaBidOut, m1, hsaBook]
                  exact hinv.bidLen
                · rw [m5, hsaAskOut, m1, hsaBook]
                  exact hinv.askLen
                · rw [m1, hsaBook]
                  exact hinv.bidsDir
                · rw [m1, hsaBook]
                  exact hinv.asksDir
                · intro o ho
                  rw [hprn] at ho
                  exact Option.noConfusion ho
                · intro o ho
                  rw [hprn] at ho
                  exact Option.noConfusion ho
              · obtain ⟨hdec, hprn⟩ := m9 (Or.inr hgt)
                refine ⟨⟨?_, ?_, ?_, ?_, ?_, ?_⟩, Or.inl (by omega)⟩
                · rw [m4, hsaBidOut, m1, hsaBook]
                  exact hinv.bidLen
                · rw [m5, hsaAskOut, m1, hsaBook]
                  exact hinv.askLen
                · rw [m1, hsaBook]
                  exact hinv.bidsDir
                · rw [m1, hsaBook]
                  exact hinv.asksDir
                · intro o ho
                  rw [hprn] at ho
                  exact Option.noConfusion ho
                · intro o ho
                  rw [hprn] at ho
                  exact Option.noConfusion ho
        · -- both sides AMM: the loop returns, contradicting a successful step
          have hbt : (OrderContainer.amm aB).isAmm = true := rfl
          have hat : (OrderContainer.amm aA).isAmm = true := rfl
          simp only [fillStep, hb, ha, hbt, hat, Bool.and_self,
            eq_self_iff_true, if_true] at h
          exact Sum.noConfusion h

theorem fillStep_postAmm_step (s sNext : VolumeFillMatcher)
    (hinv : MatcherInvG s) (hpost : PostAmmAsk s ∨ PostAmmBid s)
    (h : fillStep s = Sum.inr sNext) :
    MatcherInvG sNext ∧ matcherMeasure sNext < matcherMeasure s := by
  rcases hpost with hpa | hpb
  · obtain ⟨frag, bk, hpr, hfb, hbk, hap⟩ := hpa
    have hbcont : nextBidContainer s =
        (s, some (OrderContainer.bookOrderFragment frag)) := by
      simp only [nextBidContainer, hpr, hfb, eq_self_iff_true, if_true]
    by_cases hcmp : min bk.price frag.price < bk.price
    · -- the curve sits at the remainder price: a zero-quantity AMM ask is
      -- produced and the loop returns, contradicting a successful step
      have htryr : tryNextOrder s OrderDirection.ask =
          (s, some ⟨min bk.price frag.price, bk.price, true⟩) := by
        simp only [tryNextOrder, hap, hbk, Option.map_some', Option.some_bind,
          orderToTarget, eq_self_iff_true, if_true, if_pos hcmp,
          Option.isNone_some, Bool.false_eq_true, if_false]
      have hask : nextAskContainer s =
          (s, some (OrderContainer.amm ⟨min bk.price frag.price, bk.price,
            true⟩)) := by
        simp only [nextAskContainer, hpr, hfb, Bool.true_eq_false, if_false,
          nextAskFromBook, htryr]
      have hf1 : (OrderContainer.bookOrderFragment frag).isAmm = false := rfl
      simp only [fillStep, hbcont, hask, hf1, Bool.false_and,
        Bool.false_eq_true, if_false] at h
      have hc2 : ¬ ((OrderContainer.bookOrderFragment frag).price <
          (OrderContainer.amm ⟨min bk.price frag.price, bk.price,
            true⟩).price) := by
        simp only [OrderContainer.price]
        omega
      rw [if_neg hc2] at h
      have hz : (OrderContainer.amm ⟨min bk.price frag.price, bk.price,
            true⟩).quantity (OrderContainer.bookOrderFragment frag).price = 0 ∨
          (OrderContainer.bookOrderFragment frag).quantity
            (OrderContainer.amm ⟨min bk.price frag.price, bk.price,
              true⟩).price = 0 := by
        left
        simp only [OrderContainer.quantity, OrderContainer.price, ammQuantity,
          eq_self_iff_true, if_true]
        omega
      rw [if_pos hz] at h
      exact Sum.noConfusion h
    · -- the curve sits at the resting ask price: the book ask is delivered
      -- and a book-against-book match completes an outcome
      have htryr : tryNextOrder s OrderDirection.ask =
          ({ s with askIdx :=
              findNextIdx s.askOutcomes s.askXpool (s.askOutcomes.length + 1) s.askIdx },
           none) := by
        simp only [tryNextOrder, hap, hbk, Option.map_some', Option.some_bind,
          orderToTarget, eq_self_iff_true, if_true, if_neg hcmp,
          Option.isNone_none]
      have hask : nextAskContainer s =
          ({ s with askIdx :=
              findNextIdx s.askOutcomes s.askXpool (s.askOutcomes.length + 1) s.askIdx },
           some (OrderContainer.bookOrder bk)) := by
        simp only [nextAskContainer, hpr, hfb, Bool.true_eq_false, if_false,
          nextAskFromBook, htryr]
        rw [Prod.mk.injEq]
        refine ⟨rfl, ?_⟩
        show (s.book.asks.get? (findNextIdx s.askOutcomes s.askXpool
            (s.askOutcomes.length + 1) s.askIdx)).map OrderContainer.bookOrder
          = some (OrderContainer.bookOrder bk)
        rw [hbk, Option.map_some']
      have hf1 : (OrderContainer.bookOrderFragment frag).isAmm = false := rfl
      have hf2 : (OrderContainer.bookOrder bk).isAmm = false := rfl
      simp only [fillStep, hbcont, hask, hf1, hf2, Bool.false_and,
        Bool.false_eq_true, if_false] at h
      have hc2 : ¬ ((OrderContainer.bookOrderFragment frag).price <
          (OrderContainer.bookOrder bk).price) := by
        simp only [OrderContainer.price]
        omega
      rw [if_neg hc2] at h
      by_cases hzero : (OrderContainer.bookOrder bk).quantity
            (OrderContainer.bookOrderFragment frag).price = 0 ∨
          (OrderContainer.bookOrderFragment frag).quantity
            (OrderContainer.bookOrder bk).price = 0
      · rw [if_pos hzero] at h
        exact Sum.noConfusion h
      · rw [if_neg hzero] at h
        injection h with h2
        subst h2
        obtain ⟨hbi0, hbnc0⟩ := hinv.fragBid frag hpr hfb
        obtain ⟨hlt0, -⟩ := List.get?_eq_some.mp hbk
        have hai0 : findNextIdx s.askOutcomes s.askXpool
            (s.askOutcomes.length + 1) s.askIdx < s.askOutcomes.length := by
          have hx := hinv.askLen
          omega
        have hanc0 : notComplete (s.askOutcomes.getD
            (findNextIdx s.askOutcomes s.askXpool
              (s.askOutcomes.length + 1) s.askIdx)
            OrderFillState.CompleteFill) = true := by
          have hu := findNextIdx_unfilled s.askOutcomes s.askXpool
            (s.askOutcomes.length + 1) s.askIdx (by omega) hai0
          rw [getD_irrel_of_lt _ _ _ OrderFillState.Unfilled hai0, hu]
          rfl
        obtain ⟨w1, w2, w3, w4, w5, w6, w7⟩ :=
          executeMatch_noAmm_step
            { s with askIdx :=
                findNextIdx s.askOutcomes s.askXpool (s.askOutcomes.length + 1) s.askIdx }
            (OrderContainer.bookOrderFragment frag)
            (OrderContainer.bookOrder bk)
            ((OrderContainer.bookOrderFragment frag).quantity
              (OrderContainer.bookOrder bk).price)
            ((OrderContainer.bookOrder bk).quantity
              (OrderContainer.bookOrderFragment frag).price)
            rfl rfl hbi0 hbnc0 hai0 hanc0
            (by
              intro b hb2
              injection hb2 with hb3
              subst hb3
              exact hfb)
            (by
              intro b hb2
              injection hb2 with hb3
              subst hb3
              exact hinv.asksDir _ (List.get?_mem hbk))
        refine ⟨⟨?_, ?_, ?_, ?_, w6, w7⟩, w1⟩
        · rw [w4, w2]
          exact hinv.bidLen
        · rw [w5, w2]
          exact hinv.askLen
        · rw [w2]
          exact hinv.bidsDir
        · rw [w2]
          exact hinv.asksDir
  · obtain ⟨frag, bk, hpr, hfb, hbk, hap⟩ := hpb
    have hacont : nextAskContainer s =
        (s, some (OrderContainer.bookOrderFragment frag)) := by
      simp only [nextAskContainer, hpr, hfb, eq_self_iff_true, if_true]
    by_cases hcmp : bk.price < max bk.price frag.price
    · -- the curve sits at the remainder price: a zero-quantity AMM bid is
      -- produced and the loop returns, contradicting a successful step
      have htryr : tryNextOrder s OrderDirection.bid =
          (s, some ⟨max bk.price frag.price, bk.price, false⟩) := by
        simp only [tryNextOrder, hap, hbk, Option.map_some', Option.some_bind,
          orderToTarget, Bool.false_eq_true, if_false, if_pos hcmp,
          Option.isNone_some]
      have hbid : nextBidContainer s =
          (s, some (OrderContainer.amm ⟨max bk.price frag.price, bk.price,
            false⟩)) := by
        simp only [nextBidContainer, hpr, hfb, Bool.false_eq_true, if_false,
          nextBidFromBook, htryr]
      have hf1 : (OrderContainer.bookOrderFragment frag).isAmm = false := rfl
      have hbt : (OrderContainer.amm ⟨max bk.price frag.price, bk.price,
          false⟩).isAmm = true := rfl
      simp only [fillStep, hbid, hacont, hbt, hf1, Bool.true_and,
        Bool.false_eq_true, if_false] at h
      have hc2 : ¬ ((OrderContainer.amm ⟨max bk.price frag.price, bk.price,
          false⟩).price < (OrderContainer.bookOrderFragment frag).price) := by
        simp only [OrderContainer.price]
        omega
      rw [if_neg hc2] at h
      have hz : (OrderContainer.bookOrderFragment frag).quantity
            (OrderContainer.amm ⟨max bk.price frag.price, bk.price,
              false⟩).price = 0 ∨
          (OrderContainer.amm ⟨max bk.price frag.price, bk.price,
            false⟩).quantity
              (OrderContainer.bookOrderFragment frag).price = 0 := by
        right
        simp only [OrderContainer.quantity, OrderContainer.price, ammQuantity,
          Bool.false_eq_true, if_false]
        omega
      rw [if_pos hz] at h
      exact Sum.noConfusion h
    · -- the curve sits at the resting bid price: the book bid is delivered
      -- and a book-against-book match completes an outcome
      have htryr : tryNextOrder s OrderDirection.bid =
          ({ s with bidIdx :=
              findNextIdx s.bidOutcomes s.bidXpool (s.bidOutcomes.length + 1) s.bidIdx },
           none) := by
        simp only [tryNextOrder, hap, hbk, Option.map_some', Option.some_bind,
          orderToTarget, Bool.false_eq_true, if_false, if_neg hcmp,
          Option.isNone_none, eq_self_iff_true, if_true]
      have hbid : nextBidContainer s =
          ({ s with bidIdx :=
              findNextIdx s.bidOutcomes s.bidXpool (s.bidOutcomes.length + 1) s.bidIdx },
           some (OrderContainer.bookOrder bk)) := by
        simp only [nextBidContainer, hpr, hfb, Bool.false_eq_true, if_false,
          nextBidFromBook, htryr]
        rw [Prod.mk.injEq]
        refine ⟨rfl, ?_⟩
        show (s.book.bids.get? (findNextIdx s.bidOutcomes s.bidXpool
            (s.bidOutcomes.length + 1) s.bidIdx)).map OrderContainer.bookOrder
          = some (OrderContainer.bookOrder bk)
        rw [hbk, Option.map_some']
      have haskc : nextAskContainer
          { s with bidIdx :=
              findNextIdx s.bidOutcomes s.bidXpool (s.bidOutcomes.length + 1) s.bidIdx } =
          ({ s with bidIdx :=
              findNextIdx s.bidOutcomes s.bidXpool (s.bidOutcomes.length + 1) s.bidIdx },
           some (OrderContainer.bookOrderFragment frag)) := by
        simp only [nextAskContainer, hpr, hfb, eq_self_iff_true, if_true]
      have hf1 : (OrderContainer.bookOrderFragment frag).isAmm = false := rfl
      have hf2 : (OrderContainer.bookOrder bk).isAmm = false := rfl
      simp only [fillStep, hbid, haskc, hf1, hf2, Bool.false_and,
        Bool.false_eq_true, if_false] at h
      have hc2 : ¬ ((OrderContainer.bookOrder bk).price <
          (OrderContainer.bookOrderFragment frag).price) := by
        simp only [OrderContainer.price]
        omega
      rw [if_neg hc2] at h
      by_cases hzero : (OrderContainer.bookOrderFragment frag).quantity
            (OrderContainer.bookOrder bk).price = 0 ∨
          (OrderContainer.bookOrder bk).quantity
            (OrderContainer.bookOrderFragment frag).price = 0
      · rw [if_pos hzero] at h
        exact Sum.noConfusion h
      · rw [if_neg hzero] at h
        injection h with h2
        subst h2
        obtain ⟨hai0, hanc0⟩ := hinv.fragAsk frag hpr hfb
        obtain ⟨hlt0, -⟩ := List.get?_eq_some.mp hbk
        have hbi0 : findNextIdx s.bidOutcomes s.bidXpool
            (s.bidOutcomes.length + 1) s.bidIdx < s.bidOutcomes.length := by
          have hx := hinv.bidLen
          omega
        have hbnc0 : notComplete (s.bidOutcomes.getD
            (findNextIdx s.bidOutcomes s.bidXpool
              (s.bidOutcomes.length + 1) s.bidIdx)
            OrderFillState.CompleteFill) = true := by
          have hu := findNextIdx_unfilled s.bidOutcomes s.bidXpool
            (s.bidOutcomes.length + 1) s.bidIdx (by omega) hbi0
          rw [getD_irrel_of_lt _ _ _ OrderFillState.Unfilled hbi0, hu]
          rfl
        obtain ⟨w1, w2, w3, w4, w5, w6, w7⟩ :=
          executeMatch_noAmm_step
            { s with bidIdx :=
                findNextIdx s.bidOutcomes s.bidXpool (s.bidOutcomes.length + 1) s.bidIdx }
            (OrderContainer.bookOrder bk)
            (OrderContainer.bookOrderFragment frag)
            ((OrderContainer.bookOrder bk).quantity
              (OrderContainer.bookOrderFragment frag).price)
            ((OrderContainer.bookOrderFragment frag).quantity
              (OrderContainer.bookOrder bk).price)
            rfl rfl hbi0 hbnc0 hai0 hanc0
            (by
              intro b hb2
              injection hb2 with hb3
              subst hb3
              exact hinv.bidsDir _ (List.get?_mem hbk))
            (by
              intro b hb2
              injection hb2 with hb3
              subst hb3
              exact hfb)
        refine ⟨⟨?_, ?_, ?_, ?_, w6, w7⟩, w1⟩
        · rw [w4, w2]
          exact hinv.bidLen
        · rw [w5, w2]
          exact hinv.askLen
        · rw [w2]
          exact hinv.bidsDir
        · rw [w2]
          exact hinv.asksDir

theorem matcherInvG_start (book : OrderBook)
    (hb : ∀ o ∈ book.bids, o.isBid = true)
    (ha : ∀ o ∈ book.asks, o.isBid = false) :
    MatcherInvG (VolumeFillMatcher.start book) := by
  refine ⟨?_, ?_, hb, ha, ?_, ?_⟩
  · simp [VolumeFillMatcher.start, VolumeFillMatcher.withRelated,
      saveCheckpoint]
  · simp [VolumeFillMatcher.start, VolumeFillMatcher.withRelated,
      saveCheckpoint]
  · intro o ho
    exact Option.noConfusion ho
  · intro o ho
    exact Option.noConfusion ho

theorem fillFuel_isSome_gen :
    ∀ (fuel : Nat) (s : VolumeFillMatcher), MatcherInvG s →
      (2 * matcherMeasure s + 2 ≤ fuel ∨
        ((PostAmmAsk s ∨ PostAmmBid s) ∧ 2 * matcherMeasure s + 1 ≤ fuel)) →
      (fillFuel fuel s).isSome = true := by
  intro fuel
  induction fuel using Nat.strong_induction_on with
  | _ fuel ih =>
      intro s hinv hbound
      cases fuel with
      | zero =>
          rcases hbound with hb1 | ⟨-, hb2⟩ <;> omega
      | succ n =>
          simp only [fillFuel]
          cases hstep : fillStep s with
          | inl r => rfl
          | inr s2 =>
              by_cases hpost : PostAmmAsk s ∨ PostAmmBid s
              · obtain ⟨hinv2, hdec⟩ :=
                  fillStep_postAmm_step s s2 hinv hpost hstep
                refine ih n (by omega) s2 hinv2 (Or.inl ?_)
                rcases hbound with hb1 | ⟨-, hb2⟩ <;> omega
              · rcases hbound with hb1 | ⟨hp, -⟩
                · obtain ⟨hinv2, hcase⟩ := fillStep_inr_stepG s s2 hinv hstep
                  rcases hcase with hdec | ⟨heq, hpost2⟩
                  · exact ih n (by omega) s2 hinv2 (Or.inl (by omega))
                  · exact ih n (by omega) s2 hinv2 (Or.inr ⟨hpost2, by omega⟩)
                · exact absurd hp hpost

/-- C7 (amended): for every book whose bid entries are bid-tagged orders and
whose ask entries are ask-tagged orders (as every book built by the engine
is), the volume-fill loop always halts and reports exactly one of the five
termination reasons, within `2 * (len(bids) + len(asks)) + 2` iterations even
with an AMM snapshot; without an AMM snapshot it halts within the claimed
`len(bids) + len(asks) + 1` iterations, a bound an AMM snapshot can exceed
(see the counterexample). -/
theorem volume_fill_always_halts :
    ∀ (book : OrderBook),
      (∀ o ∈ book.bids, o.isBid = true) →
      (∀ o ∈ book.asks, o.isBid = false) →
      (∃ reason sFinal,
        fillFuel (2 * (book.bids.length + book.asks.length) + 2)
          (VolumeFillMatcher.start book) = some (reason, sFinal)
        ∧ (reason = VolumeFillMatchEndReason.NoMoreBids
           ∨ reason = VolumeFillMatchEndReason.NoMoreAsks
           ∨ reason = VolumeFillMatchEndReason.BothSidesAMM
           ∨ reason = VolumeFillMatchEndReason.NoLongerCross
           ∨ reason = VolumeFillMatchEndReason.ZeroQuantity))
      ∧ (book.amm = none →
        ∃ reason sFinal,
          fillFuel (book.bids.length + book.asks.length + 1)
            (VolumeFillMatcher.start book) = some (reason, sFinal)
          ∧ (reason = VolumeFillMatchEndReason.NoMoreBids
             ∨ reason = VolumeFillMatchEndReason.NoMoreAsks
             ∨ reason = VolumeFillMatchEndReason.BothSidesAMM
             ∨ reason = VolumeFillMatchEndReason.NoLongerCross
             ∨ reason = VolumeFillMatchEndReason.ZeroQuantity)) := by
  intro book hb ha
  refine ⟨?_, fun hamm => volume_fill_halts_no_amm book hamm hb ha⟩
  have hinv := matcherInvG_start book hb ha
  have hsome := fillFuel_isSome_gen
    (2 * (book.bids.length + book.asks.length) + 2)
    (VolumeFillMatcher.start book) hinv
    (Or.inl (by rw [matcherMeasure_start]))
  rcases hres : fillFuel (2 * (book.bids.length + book.asks.length) + 2)
      (VolumeFillMatcher.start book) with _ | ⟨reason, sFinal⟩
  · rw [hres] at hsome
    exact Bool.noConfusion hsome
  · refine ⟨reason, sFinal, rfl, ?_⟩
    cases reason
    · exact Or.inl rfl
    · exact Or.inr (Or.inl rfl)
    · exact Or.inr (Or.inr (Or.inl rfl))
    · exact Or.inr (Or.inr (Or.inr (Or.inl rfl)))
    · exact Or.inr (Or.inr (Or.inr (Or.inr rfl)))

/-- C7 witness: the one-bid, two-ask book carrying an AMM snapshot is
direction-consistent, so the loop halts on it within
`2 * (1 + 2) + 2 = 8` iterations with one of the five reasons. -/
theorem volume_fill_always_halts_witness :
    (∀ o ∈ ceBookAmm.bids, o.isBid = true)
    ∧ (∀ o ∈ ceBookAmm.asks, o.isBid = false)
    ∧ ((∃ reason sFinal,
        fillFuel (2 * (ceBookAmm.bids.length + ceBookAmm.asks.length) + 2)
          (VolumeFillMatcher.start ceBookAmm) = some (reason, sFinal)
        ∧ (reason = VolumeFillMatchEndReason.NoMoreBids
           ∨ reason = VolumeFillMatchEndReason.NoMoreAsks
           ∨ reason = VolumeFillMatchEndReason.BothSidesAMM
           ∨ reason = VolumeFillMatchEndReason.NoLongerCross
           ∨ reason = VolumeFillMatchEndReason.ZeroQuantity))
      ∧ (ceBookAmm.amm = none →
        ∃ reason sFinal,
          fillFuel (ceBookAmm.bids.length + ceBookAmm.asks.length + 1)
            (VolumeFillMatcher.start ceBookAmm) = some (reason, sFinal)
          ∧ (reason = VolumeFillMatchEndReason.NoMoreBids
             ∨ reason = VolumeFillMatchEndReason.NoMoreAsks
             ∨ reason = VolumeFillMatchEndReason.BothSidesAMM
             ∨ reason = VolumeFillMatchEndReason.NoLongerCross
             ∨ reason = VolumeFillMatchEndReason.ZeroQuantity))) :=
  ⟨by decide, by decide, volume_fill_always_halts ceBookAmm (by decide)
    (by decide)⟩
